import Mathlib

/-!
CoolingBuffer (xs/src/libslic3r/GCode/CoolingBuffer.cpp)

A shallow embedding of `CoolingBuffer::append`, `apply_speed_factor` and
`CoolingBuffer::flush`, followed by the properties proved about them.

Conventions of the embedding

* `std::string` is a list of characters (`Str`); positions are natural
  numbers and `npos` is `2^64 - 1`; `size_t` arithmetic is reduced modulo `2^64`
  where the source can wrap (`pos+1`, `last_pos-pos`, `object_id * 2 + is_support`).
* `float` values (elapsed time, speed factor, feed rate) are rationals; NaN is not modelled, and
  an infinity only as far as `apply_speed_factor` can write one.  The rounding of single-precision
  arithmetic (`fl32`: to nearest, ties to even, with gradual underflow) is modelled where the digits
  of a result depend on it: in `apply_speed_factor` (the number read, its product with the factor)
  and in `flush_fan_speed_f32` (the interpolation).  `flush_fan_speed` and `flush_speed_factor` are
  the control law of `flush` in exact arithmetic; they serve the properties of order and range, and
  `flush` hands the exact quotient and the exact floor to the scan.
* `int` configuration values are unbounded integers; the conversion of a `float`
  to `int` truncates toward zero.
* A standard-library call that can throw (`substr`, `replace` with a start
  position beyond the end) returns `Option`, and so does everything that calls it.
-/

namespace Slic3r

/-- The text type: `std::string` as a list of characters. -/
abbrev Str := List Char

/-! ## Standard library and boost string primitives -/

/-- The value of `std::string::npos` for a 64-bit `size_t`. -/
def npos : Nat := 2 ^ 64 - 1

/-- Model of `std::string::find_first_of(char c, size_t pos)`: index of the first `c` at
or after `pos`, `npos` when there is none (or `pos` is not inside the string). -/
def find_first_of (s : Str) (c : Char) (pos : Nat) : Nat :=
  if (s.drop pos).indexOf c < (s.drop pos).length then pos + (s.drop pos).indexOf c else npos

/-- Model of `std::string::substr(pos, n)`: throws (`none`) when `pos > size()`,
otherwise the at most `n` characters from `pos` on. -/
def substr (s : Str) (pos n : Nat) : Option Str :=
  if pos ≤ s.length then some ((s.drop pos).take n) else none

/-- Model of `std::string::replace(pos, n, str)`: throws (`none`) when `pos > size()`,
otherwise the at most `n` characters from `pos` on are replaced by `str`. -/
def replace (s : Str) (pos n : Nat) (str : Str) : Option Str :=
  if pos ≤ s.length then some (s.take pos ++ str ++ (s.drop pos).drop n) else none

/-- Model of `boost::starts_with(s, pat)`. -/
def starts_with : Str → Str → Bool
  | _, [] => true
  | [], _ :: _ => false
  | c :: cs, p :: ps => c == p && starts_with cs ps

/-- Model of `boost::contains(s, pat)`: `pat` occurs in `s` as a substring. -/
def contains : Str → Str → Bool
  | [], pat => starts_with [] pat
  | c :: cs, pat => starts_with (c :: cs) pat || contains cs pat

/-- Model of `boost::replace_first(s, pat, rep)`: the leftmost occurrence of `pat` is
replaced by `rep`; without an occurrence the text is unchanged. -/
def replace_first : Str → Str → Str → Str
  | [], pat, rep => if starts_with [] pat then rep else []
  | c :: cs, pat, rep =>
    if starts_with (c :: cs) pat then rep ++ (c :: cs).drop pat.length
    else c :: replace_first cs pat rep

/-- Worker of `replace_all`: `skip` is the number of characters of the input that still
belong to the occurrence found last and are passed over. -/
def replace_all_aux (pat rep : Str) : Nat → Str → Str
  | _, [] => []
  | skip + 1, _ :: cs => replace_all_aux pat rep skip cs
  | 0, c :: cs =>
    if starts_with (c :: cs) pat then rep ++ replace_all_aux pat rep (pat.length - 1) cs
    else c :: replace_all_aux pat rep 0 cs

/-- Model of `boost::replace_all(s, pat, rep)` for a non-empty `pat`: the occurrences of
`pat` are found left to right, without overlap, in the input (inserted text is not
searched again) and each is replaced by `rep`. -/
def replace_all (s pat rep : Str) : Str := replace_all_aux pat rep 0 s

/-- Lines read by the loop `while (std::getline(ss, line))`: the text is cut at every
newline, the newline is dropped, and no line is read after a final newline. -/
def getlines : Str → List Str
  | [] => []
  | c :: cs =>
    if c = '\n' then [] :: getlines cs
    else match getlines cs with
      | [] => [[c]]
      | l :: ls => (c :: l) :: ls

/-! ## Single-precision arithmetic -/

/-- The power `2 ^ k` for an integer exponent `k`. -/
def pow2 (k : Int) : ℚ :=
  if 0 ≤ k then ((2 ^ k.toNat : Nat) : ℚ) else 1 / ((2 ^ (-k).toNat : Nat) : ℚ)

/-- The binary logarithm of a positive natural number, rounded down (by halving, at most `fuel`
times). -/
def log2_floor : Nat → Nat → Nat
  | 0, _ => 0
  | fuel + 1, n => if n < 2 then 0 else log2_floor fuel (n / 2) + 1

/-- The binary exponent of a positive rational `x`: the `e` with `2^e ≤ x < 2^(e+1)`.  It is the
difference of the binary logarithms of numerator and denominator, or one less. -/
def ilog2 (x : ℚ) : Int :=
  if pow2 ((log2_floor x.num.natAbs x.num.natAbs : Int) - (log2_floor x.den x.den : Int)) ≤ x
  then (log2_floor x.num.natAbs x.num.natAbs : Int) - (log2_floor x.den x.den : Int)
  else (log2_floor x.num.natAbs x.num.natAbs : Int) - (log2_floor x.den x.den : Int) - 1

/-- Rounding to the nearest integer, a tie going to the even one. -/
def round_to_even (x : ℚ) : Int :=
  if x - ⌊x⌋ < 1 / 2 then ⌊x⌋
  else if 1 / 2 < x - ⌊x⌋ then ⌊x⌋ + 1
  else if ⌊x⌋ % 2 = 0 then ⌊x⌋ else ⌊x⌋ + 1

/-- The exponent of the unit in the last place of `x` in a binary format with `p` significant bits
and least normal exponent `emin`. -/
def ulp_exponent (p : Nat) (emin : Int) (x : ℚ) : Int :=
  max (ilog2 |x|) emin - ((p : Int) - 1)

/-- Rounding of `x` to the nearest number of the binary floating-point format with `p` significant
bits and least normal exponent `emin` (ties to even, gradual underflow; the exponent is not
bounded above, so a result beyond the largest finite number is not turned into an infinity). -/
def round_float (p : Nat) (emin : Int) (x : ℚ) : ℚ :=
  if x = 0 then 0
  else (round_to_even (x / pow2 (ulp_exponent p emin x)) : ℚ) * pow2 (ulp_exponent p emin x)

/-- Rounding to `float` (IEEE binary32): 24 significant bits, least normal exponent -126. -/
def fl32 (x : ℚ) : ℚ := round_float 24 (-126) x

/-- The largest finite `float`, `(2^24 - 1) * 2^104`. -/
def FLT_MAX : ℚ := (2 ^ 24 - 1) * 2 ^ 104

/-- The `float` that the stream extraction stores for a number text of value `x`: `x` rounded to
single precision, and the largest finite `float` (with its sign) when that is out of range. -/
def to_float (x : ℚ) : ℚ :=
  if FLT_MAX < fl32 x then FLT_MAX
  else if fl32 x < -FLT_MAX then -FLT_MAX
  else fl32 x

/-! ## Formatted stream input and output of a `float` -/

/-- Whitespace skipped by `operator>>` (`std::isspace` in the "C" locale). -/
def isspace (c : Char) : Bool :=
  c == ' ' || c == '\t' || c == '\n' || c == '\x0b' || c == '\x0c' || c == '\r'

/-- Decimal digits. -/
def isdigit (c : Char) : Bool := '0' ≤ c && c ≤ '9'

/-- The number written by a run of decimal digits. -/
def digitsVal (ds : Str) : Nat := ds.foldl (fun acc c => acc * 10 + (c.toNat - 48)) 0

/-- Whether the text begins with a minus sign. -/
def hasMinus : Str → Bool
  | '-' :: _ => true
  | _ => false

/-- The text without a leading sign. -/
def stripSign : Str → Str
  | '-' :: t => t
  | '+' :: t => t
  | s => s

/-- The digits of a fraction: those after a leading decimal point. -/
def fracDigits : Str → Str
  | '.' :: t => t.takeWhile isdigit
  | _ => []

/-- The text after a fraction. -/
def afterFrac : Str → Str
  | '.' :: t => t.dropWhile isdigit
  | s => s

/-- The value of `signed` scaled by the exponent that `s` begins with, if any; an exponent
letter that is not followed by digits makes the conversion fail (zero). -/
def applyExponent (signed : ℚ) : Str → ℚ
  | 'e' :: t | 'E' :: t =>
    if ((stripSign t).takeWhile isdigit).isEmpty then 0
    else if hasMinus t then signed / ((10 ^ digitsVal ((stripSign t).takeWhile isdigit) : Nat) : ℚ)
    else signed * ((10 ^ digitsVal ((stripSign t).takeWhile isdigit) : Nat) : ℚ)
  | _ => signed

/-- The value of the number text that `iss >> speed` reads from a fresh stream holding `s`: leading
whitespace is skipped, then an optional sign, digits, an optional fraction and an optional
exponent are read as far as they go.  When no number can be read, or an exponent letter is
not followed by digits, the extraction fails and the value is zero. -/
def extract_decimal (s : Str) : ℚ :=
  let s0 := s.dropWhile isspace
  let s1 := stripSign s0
  let ip := s1.takeWhile isdigit
  let s2 := s1.dropWhile isdigit
  let fp := fracDigits s2
  let mant : ℚ := (digitsVal ip : ℚ) + (digitsVal fp : ℚ) / ((10 ^ fp.length : Nat) : ℚ)
  if ip.isEmpty && fp.isEmpty then 0
  else applyExponent (if hasMinus s0 then -mant else mant) (afterFrac s2)

/-- Model of `iss >> speed` for the `float speed` of `apply_speed_factor`: the number text is
converted to the nearest `float`, the largest finite `float` when it is out of range.  A failed
extraction of a text that is not a number stores zero.  On an empty or blank text the source stores
nothing and `speed` keeps the indeterminate value it was declared with; the model takes zero for
that value too. -/
def extract_float (s : Str) : ℚ := to_float (extract_decimal s)

/-- The character of a decimal digit. -/
def digitChar (d : Nat) : Char :=
  match d % 10 with
  | 0 => '0' | 1 => '1' | 2 => '2' | 3 => '3' | 4 => '4'
  | 5 => '5' | 6 => '6' | 7 => '7' | 8 => '8' | _ => '9'

/-- The last `width` decimal digits of `n`, most significant first. -/
def fixedDigits : Nat → Nat → Str
  | 0, _ => []
  | width + 1, n => fixedDigits width (n / 10) ++ [digitChar n]

/-- Largest `k` (searched upward from `k`) with `d * 10^k ≤ n`. -/
def expUp (n d : Nat) : Nat → Nat → Nat
  | 0, k => k
  | fuel + 1, k => if d * 10 ^ (k + 1) ≤ n then expUp n d fuel (k + 1) else k

/-- Smallest `k` (searched upward from `k`) with `d ≤ n * 10^k`. -/
def expDown (n d : Nat) : Nat → Nat → Nat
  | 0, k => k
  | fuel + 1, k => if d ≤ n * 10 ^ k then k else expDown n d fuel (k + 1)

/-- Quotient `n / d` rounded to the nearest natural number, ties to even. -/
def roundHalfEven (n d : Nat) : Nat :=
  if 2 * (n % d) < d then n / d
  else if d < 2 * (n % d) then n / d + 1
  else if (n / d) % 2 = 0 then n / d else n / d + 1

/-- Removal of trailing zeros. -/
def stripZeros (ds : Str) : Str := (ds.reverse.dropWhile (· == '0')).reverse

/-- A fractional part: nothing when all its digits are zero, else a point and the digits
without trailing zeros. -/
def fracPart (ds : Str) : Str :=
  if (stripZeros ds).isEmpty then [] else '.' :: stripZeros ds

/-- The `%g` text of a non-zero number given by its sign, its six significant digits `sig` and
its decimal exponent `x`: fixed notation when `x` is between -4 and 5, scientific notation
otherwise, trailing zeros removed. -/
def formatG (neg : Bool) (sig : Nat) (x : Int) : Str :=
  let ds := fixedDigits 6 sig
  let sign : Str := if neg then ['-'] else []
  if x < -4 ∨ 6 ≤ x then
    sign ++ ds.take 1 ++ fracPart (ds.drop 1)
      ++ ['e', if x < 0 then '-' else '+']
      ++ fixedDigits (max 2 (expUp x.natAbs 1 x.natAbs 0 + 1)) x.natAbs
  else if 0 ≤ x then
    sign ++ ds.take (x.toNat + 1) ++ fracPart (ds.drop (x.toNat + 1))
  else
    sign ++ ['0', '.'] ++ List.replicate ((-x).toNat - 1) '0' ++ stripZeros ds

/-- Model of `oss << speed` for a `float` on a fresh stream (the `%g` conversion with six
significant digits, rounded to nearest, ties to even). -/
def insert_float (q : ℚ) : Str :=
  let n := q.num.natAbs
  let d := q.den
  if n = 0 then ['0']
  else
    let x0 : Int := if d ≤ n then (expUp n d n 0 : Int) else -(expDown n d d 0 : Int)
    let sig0 := if x0 ≤ 5 then roundHalfEven (n * 10 ^ (5 - x0).toNat) d
                else roundHalfEven n (d * 10 ^ (x0 - 5).toNat)
    formatG (decide (q < 0)) (if sig0 = 10 ^ 6 then 10 ^ 5 else sig0)
      (if sig0 = 10 ^ 6 then x0 + 1 else x0)

/-- Model of `oss << speed` for the `float speed` of `apply_speed_factor`.  The rounded product
has no bound in the model; a value beyond the largest finite `float` stands for the infinity that
the overflowing operation gives, and is written `inf`. -/
def insert_speed (q : ℚ) : Str :=
  if FLT_MAX < q then "inf".toList
  else if q < -FLT_MAX then "-inf".toList
  else insert_float q

/-! ## The line rewriter -/

/-- Embedding of `apply_speed_factor(line, speed_factor, min_print_speed)`; the result is the new
content of `line`.  The product `speed *= speed_factor` is rounded to single precision; the
arguments stand for `float` values, and a value beyond the `float` range for an infinity. -/
def apply_speed_factor (line : Str) (speed_factor min_print_speed : ℚ) : Option Str := do
  -- find pos of F
  let pos := find_first_of line 'F' 0
  let last_pos := find_first_of line ' ' ((pos + 1) % 2 ^ 64)
  -- extract current speed
  let sub ← substr line ((pos + 1) % 2 ^ 64) last_pos
  let speed := extract_float sub
  -- change speed
  let speed := fl32 (speed * speed_factor)
  let speed := max speed min_print_speed
  -- replace speed in string
  replace line ((pos + 1) % 2 ^ 64) ((last_pos + 2 ^ 64 - pos) % 2 ^ 64) (insert_speed speed)

/-! ## Collaborators of the cooling buffer -/

/-- Modelled from the spec: the fields of the Cooling Configuration (`FullPrintConfig`, declared
outside this file) that `flush` reads.  The thresholds, fan speeds and the first-layers count are
`int` options, `min_print_speed` is a floating-point option. -/
structure FullPrintConfig where
  cooling : Bool
  fan_always_on : Bool
  min_fan_speed : Int
  max_fan_speed : Int
  slowdown_below_layer_time : Int
  fan_below_layer_time : Int
  disable_fan_first_layers : Int
  bridge_fan_speed : Int
  min_print_speed : ℚ

/-- Modelled from the spec: the G-code generator `m_gcodegen` (class `GCode`, declared outside
this file) as far as the cooling buffer uses it: the configuration, the command writer
`writer().set_fan(speed, dont_save)` as a function to text, and the elapsed-time estimator, whose
reading is `elapsed_time`.  `elapsed_resets` counts the calls of `get_reset_elapsed_time`; it is
bookkeeping of the model only. -/
structure GCode where
  config : FullPrintConfig
  set_fan : Int → Bool → Str
  elapsed_time : ℚ
  elapsed_resets : Nat

/-- Modelled from the spec: `GCode::get_reset_elapsed_time()` returns the time since the last
reset and resets the estimator. -/
def GCode.get_reset_elapsed_time (g : GCode) : ℚ × GCode :=
  (g.elapsed_time, { g with elapsed_time := 0, elapsed_resets := g.elapsed_resets + 1 })

/-! ## The cooling buffer -/

/-- The members of `class CoolingBuffer`. -/
structure CoolingBuffer where
  m_gcodegen : GCode
  m_gcode : Str
  m_elapsed_time : ℚ
  m_layer_id : Nat
  m_object_ids_visited : Finset Nat

/-- The marker texts, in the spelling of the source. -/
def EXTRUDE_SET_SPEED : Str := ";_EXTRUDE_SET_SPEED".toList

/-- The wipe marker. -/
def WIPE : Str := ";_WIPE".toList

/-- The marker opening a bridge region. -/
def BRIDGE_FAN_START : Str := ";_BRIDGE_FAN_START".toList

/-- The marker closing a bridge region. -/
def BRIDGE_FAN_END : Str := ";_BRIDGE_FAN_END".toList

/-- Conversion of a `float` to `int`: truncation toward zero. -/
def float_to_int (x : ℚ) : Int := if 0 ≤ x then ⌊x⌋ else ⌈x⌉

/-- The value of `fan_speed` in `flush` after the `if (config.cooling)` block (source lines
62 to 81), before the first-layers override, in exact arithmetic. -/
def flush_fan_speed (config : FullPrintConfig) (elapsed : ℚ) : Int :=
  let fan_speed : Int := if config.fan_always_on then config.min_fan_speed else 0
  if config.cooling then
    if elapsed < (config.slowdown_below_layer_time : ℚ) then
      -- Layer time very short. Enable the fan to a full throttle and slow down the print
      config.max_fan_speed
    else if elapsed < (config.fan_below_layer_time : ℚ) then
      -- Layer time quite short. Enable the fan proportionally according to the current layer time.
      float_to_int ((config.max_fan_speed : ℚ)
        - ((config.max_fan_speed - config.min_fan_speed : Int) : ℚ)
          * (elapsed - (config.slowdown_below_layer_time : ℚ))
          / ((config.fan_below_layer_time - config.slowdown_below_layer_time : Int) : ℚ))
    else fan_speed
  else fan_speed

/-- The value of `fan_speed` in `flush` after the `if (config.cooling)` block (source lines 62 to
81) in single-precision arithmetic: every conversion of an `int` to `float` and every operation of
the interpolation is rounded to `float`, and the result is truncated to `int`. -/
def flush_fan_speed_f32 (config : FullPrintConfig) (elapsed : ℚ) : Int :=
  let fan_speed : Int := if config.fan_always_on then config.min_fan_speed else 0
  if config.cooling then
    if elapsed < fl32 (config.slowdown_below_layer_time : ℚ) then
      config.max_fan_speed
    else if elapsed < fl32 (config.fan_below_layer_time : ℚ) then
      float_to_int (fl32 (fl32 (config.max_fan_speed : ℚ)
        - fl32 (fl32 (fl32 ((config.max_fan_speed - config.min_fan_speed : Int) : ℚ)
              * fl32 (elapsed - fl32 (config.slowdown_below_layer_time : ℚ)))
            / fl32 ((config.fan_below_layer_time - config.slowdown_below_layer_time : Int) : ℚ))))
    else fan_speed
  else fan_speed

/-- The value of `speed_factor` in `flush` after the `if (config.cooling)` block has assigned it
(source lines 64 to 74). -/
def flush_speed_factor (config : FullPrintConfig) (elapsed : ℚ) : ℚ :=
  if config.cooling then
    if elapsed < (config.slowdown_below_layer_time : ℚ) then
      elapsed / (config.slowdown_below_layer_time : ℚ)
    else 1
  else 1

/-- The condition under which the scan of `flush` hands `line` to `apply_speed_factor`. -/
def scan_eligible (line : Str) (bridge_fan_start : Bool) : Bool :=
  starts_with line "G1".toList
    && contains line EXTRUDE_SET_SPEED
    && !contains line WIPE
    && !bridge_fan_start

/-- The body of the loop `while (std::getline(ss, line))` of `flush` applied to one line: the
line as it is added to `new_gcode` (without the newline). -/
def scan_line (speed_factor min_print_speed : ℚ) (line : Str) (bridge_fan_start : Bool) :
    Option Str :=
  if scan_eligible line bridge_fan_start then
    match apply_speed_factor line speed_factor min_print_speed with
    | none => none
    | some line1 => some (replace_first line1 EXTRUDE_SET_SPEED [])
  else some line

/-- The loop `while (std::getline(ss, line))` of `flush` over the lines still to be read, with
the loop variables `bridge_fan_start` and `new_gcode`. -/
def scan_loop (speed_factor min_print_speed : ℚ) : List Str → Bool → Str → Option Str
  | [], _, new_gcode => some new_gcode
  | line :: rest, bridge_fan_start, new_gcode =>
    match scan_line speed_factor min_print_speed line bridge_fan_start with
    | none => none
    | some line1 =>
      scan_loop speed_factor min_print_speed rest (contains line1 BRIDGE_FAN_START)
        (new_gcode ++ (line1 ++ ['\n']))

/-- The scan of `flush` (source lines 91 to 107): the new value of `gcode`. -/
def flush_scan (speed_factor min_print_speed : ℚ) (gcode : Str) : Option Str :=
  scan_loop speed_factor min_print_speed (getlines gcode) false []

/-- The comparison `m_layer_id < config.disable_fan_first_layers` of a `size_t` with an `int`:
the `int` is converted to `size_t` first. -/
def fan_disabled_on_layer (config : FullPrintConfig) (m_layer_id : Nat) : Bool :=
  m_layer_id < (config.disable_fan_first_layers % 2 ^ 64).toNat

/-- The fan speed `flush` passes to the command writer: `flush_fan_speed` with the first-layers
override (source lines 110 and 111). -/
def flush_final_fan_speed (config : FullPrintConfig) (m_layer_id : Nat) (elapsed : ℚ) : Int :=
  if fan_disabled_on_layer config m_layer_id then 0 else flush_fan_speed config elapsed

/-- The marker resolution of `flush` (source lines 113 to 124) on the scanned text `gcode`. -/
def flush_resolve (gen : GCode) (m_layer_id : Nat) (fan_speed : Int) (gcode : Str) : Str :=
  let config := gen.config
  let gcode := gen.set_fan fan_speed false ++ gcode
  -- bridge fan speed
  let gcode :=
    if !config.cooling || config.bridge_fan_speed == 0 || fan_disabled_on_layer config m_layer_id
    then replace_all (replace_all gcode BRIDGE_FAN_START []) BRIDGE_FAN_END []
    else replace_all
      (replace_all gcode BRIDGE_FAN_START (gen.set_fan config.bridge_fan_speed true))
      BRIDGE_FAN_END (gen.set_fan fan_speed true)
  let gcode := replace_all gcode WIPE []
  replace_all gcode EXTRUDE_SET_SPEED []

/-- Embedding of `CoolingBuffer::flush()`: the returned text and the buffer afterwards. -/
def CoolingBuffer.flush (self : CoolingBuffer) : Option (Str × CoolingBuffer) :=
  let config := self.m_gcodegen.config
  let gcode := self.m_gcode
  let elapsed := self.m_elapsed_time
  let speed_factor := flush_speed_factor config elapsed
  let scanned : Option Str :=
    if config.cooling && decide (speed_factor < 1) then
      flush_scan speed_factor (config.min_print_speed * 60) gcode
    else some gcode
  match scanned with
  | none => none
  | some gcode =>
    let fan_speed := flush_final_fan_speed config self.m_layer_id elapsed
    some (flush_resolve self.m_gcodegen self.m_layer_id fan_speed gcode,
      { self with m_gcode := [], m_elapsed_time := 0, m_object_ids_visited := ∅ })

/-- The value of `signature` in `append`: `object_id * 2 + is_support ? 1 : 0`, in which the
conditional operator binds weaker than `+`, so the condition is the whole `size_t` sum
`object_id * 2 + is_support`. -/
def append_signature (object_id : Nat) (is_support : Bool) : Nat :=
  if (object_id * 2 + (if is_support then 1 else 0)) % 2 ^ 64 ≠ 0 then 1 else 0

/-- Embedding of `CoolingBuffer::append(gcode, object_id, layer_id, is_support)`: the returned
text and the buffer afterwards. -/
def CoolingBuffer.append (self : CoolingBuffer) (gcode : Str) (object_id layer_id : Nat)
    (is_support : Bool) : Option (Str × CoolingBuffer) :=
  let signature := append_signature object_id is_support
  let flushed : Option (Str × CoolingBuffer) :=
    if signature ∈ self.m_object_ids_visited then self.flush else some ([], self)
  match flushed with
  | none => none
  | some (out, self) =>
    some (out,
      { m_gcodegen := self.m_gcodegen.get_reset_elapsed_time.2
        m_object_ids_visited := insert signature self.m_object_ids_visited
        m_layer_id := layer_id
        m_gcode := self.m_gcode ++ gcode
        m_elapsed_time := self.m_elapsed_time + self.m_gcodegen.get_reset_elapsed_time.1 })

/-! ## Sample collaborators used in the concrete evaluations -/

/-- A sample configuration: thresholds 10 s and 30 s, fan between 20 and 100, always on, bridge fan 80,
minimum print speed 10 mm/s. -/
def sampleConfig : FullPrintConfig :=
  { cooling := true, fan_always_on := true, min_fan_speed := 20, max_fan_speed := 100,
    slowdown_below_layer_time := 10, fan_below_layer_time := 30, disable_fan_first_layers := 0,
    bridge_fan_speed := 80, min_print_speed := 10 }

/-- A sample command writer: `M107` for speed zero, `M106 S<speed>` otherwise, one command per line. -/
def sampleSetFan (speed : Int) (_dont_save : Bool) : Str :=
  if speed = 0 then "M107\n".toList
  else "M106 S".toList ++ insert_float (speed : ℚ) ++ ['\n']

/-- A sample generator with the given estimator reading. -/
def sampleGen (elapsed_time : ℚ) : GCode :=
  { config := sampleConfig, set_fan := sampleSetFan, elapsed_time := elapsed_time,
    elapsed_resets := 0 }

/-- An empty cooling buffer, as constructed, attached to the sample generator. -/
def sampleEmpty (elapsed_time : ℚ) : CoolingBuffer :=
  { m_gcodegen := sampleGen elapsed_time, m_gcode := [], m_elapsed_time := 0, m_layer_id := 0,
    m_object_ids_visited := ∅ }

/-- A generator whose command writer answers every request with the text `;_WIPE`. -/
def wipeWriterGen : GCode :=
  { config := sampleConfig, set_fan := fun _ _ => WIPE, elapsed_time := 40, elapsed_resets := 0 }

/-- An empty cooling buffer attached to `wipeWriterGen`. -/
def wipeWriterEmpty : CoolingBuffer :=
  { m_gcodegen := wipeWriterGen, m_gcode := [], m_elapsed_time := 0, m_layer_id := 0,
    m_object_ids_visited := ∅ }

/-! ## Decimal numerals -/

/-- `Decimal num v`: the text `num` is an unsigned decimal numeral of value `v`, that is a
non-empty run of digits, optionally followed by a point and further digits. -/
inductive Decimal : Str → ℚ → Prop
  | whole (ip : Str) : ip ≠ [] → (∀ c ∈ ip, isdigit c = true) →
      Decimal ip (digitsVal ip : ℚ)
  | point (ip fp : Str) : ip ≠ [] → (∀ c ∈ ip, isdigit c = true) →
      (∀ c ∈ fp, isdigit c = true) →
      Decimal (ip ++ '.' :: fp)
        ((digitsVal ip : ℚ) + (digitsVal fp : ℚ) / ((10 ^ fp.length : Nat) : ℚ))

/-! ## Well-formedness of marker text -/

/-- The four marker texts of the protocol. -/
def markers : List Str := [EXTRUDE_SET_SPEED, WIPE, BRIDGE_FAN_START, BRIDGE_FAN_END]

/-- The characters that the stream output of a `float` can consist of: those of a number and the
letters of `inf`. -/
def numChar (c : Char) : Bool :=
  isdigit c || c == '.' || c == 'e' || c == '+' || c == '-' || c == 'i' || c == 'n' || c == 'f'

/-- A text is well marked, relative to the marker texts `live`, when every `;` in it either begins
one of the markers in `live` or is followed by a character other than `;` and `_` (as in an
ordinary comment `; text`). -/
inductive WellMarked (live : List Str) : Str → Prop
  | nil : WellMarked live []
  | marker (m rest : Str) : m ∈ live → WellMarked live rest → WellMarked live (m ++ rest)
  | plain (c : Char) (rest : Str) : c ≠ ';' → WellMarked live rest → WellMarked live (c :: rest)
  | comment (c : Char) (rest : Str) : c ≠ ';' → c ≠ '_' → WellMarked live rest →
      WellMarked live (';' :: c :: rest)

/-- The invariant of the marker resolution: every `;` in the text either begins one of the
markers in `live`, or is followed by a run `w` of characters without `;` after which no marker
text can begin at that `;`, whatever follows. -/
inductive MarkerSafe (live : List Str) : Str → Prop
  | nil : MarkerSafe live []
  | marker (m rest : Str) : m ∈ live → MarkerSafe live rest → MarkerSafe live (m ++ rest)
  | plain (c : Char) (rest : Str) : c ≠ ';' → MarkerSafe live rest → MarkerSafe live (c :: rest)
  | dead (w rest : Str) : (∀ c ∈ w, c ≠ ';') →
      (∀ m ∈ markers, ∀ x, starts_with (';' :: (w ++ x)) m = false) →
      MarkerSafe live rest → MarkerSafe live (';' :: (w ++ rest))

/-! ## Views of `flush` used in the statements -/

/-- The marker passes of `flush` (source lines 116 to 124) on a text. -/
def resolve_markers (gen : GCode) (m_layer_id : Nat) (fan_speed : Int) (text : Str) : Str :=
  replace_all
    (replace_all
      (if !gen.config.cooling || gen.config.bridge_fan_speed == 0
          || fan_disabled_on_layer gen.config m_layer_id
        then replace_all (replace_all text BRIDGE_FAN_START []) BRIDGE_FAN_END []
        else replace_all
          (replace_all text BRIDGE_FAN_START (gen.set_fan gen.config.bridge_fan_speed true))
          BRIDGE_FAN_END (gen.set_fan fan_speed true))
      WIPE [])
    EXTRUDE_SET_SPEED []

/-- The text `flush` hands to the marker resolution: the scanned buffer when the scan runs, else the
buffer itself. -/
def flush_scanned (self : CoolingBuffer) : Option Str :=
  if self.m_gcodegen.config.cooling
      && decide (flush_speed_factor self.m_gcodegen.config self.m_elapsed_time < 1) then
    flush_scan (flush_speed_factor self.m_gcodegen.config self.m_elapsed_time)
      (self.m_gcodegen.config.min_print_speed * 60) self.m_gcode
  else some self.m_gcode

/-- A cooling buffer on the sample generator with the given first-layers count, holding a bridge
region as its buffer. -/
def bridgeBuffer (disable_fan_first_layers : Int) (m_layer_id : Nat) (elapsed : ℚ) :
    CoolingBuffer :=
  { m_gcodegen := { sampleGen 0 with
      config := { sampleConfig with disable_fan_first_layers := disable_fan_first_layers } }
    m_gcode := ";_BRIDGE_FAN_START\nG1 X1\n;_BRIDGE_FAN_END\n".toList
    m_elapsed_time := elapsed
    m_layer_id := m_layer_id
    m_object_ids_visited := {1} }

/-- Division that fails on a zero divisor. -/
def checked_div (a b : ℚ) : Option ℚ := if b = 0 then none else some (a / b)

/-- Source lines 62 to 81 of `flush` with every division checked: the fan speed and the speed
factor after the `if (config.cooling)` block, or `none` when a division by zero is evaluated. -/
def flush_control_checked (config : FullPrintConfig) (elapsed : ℚ) : Option (Int × ℚ) :=
  let fan_speed : Int := if config.fan_always_on then config.min_fan_speed else 0
  if config.cooling then
    if elapsed < (config.slowdown_below_layer_time : ℚ) then
      (checked_div elapsed (config.slowdown_below_layer_time : ℚ)).map
        (fun speed_factor => (config.max_fan_speed, speed_factor))
    else if elapsed < (config.fan_below_layer_time : ℚ) then
      (checked_div
        (((config.max_fan_speed - config.min_fan_speed : Int) : ℚ)
          * (elapsed - (config.slowdown_below_layer_time : ℚ)))
        ((config.fan_below_layer_time - config.slowdown_below_layer_time : Int) : ℚ)).map
        (fun q => (float_to_int ((config.max_fan_speed : ℚ) - q), 1))
    else some (fan_speed, 1)
  else some (fan_speed, 1)

/-- Reassembly of lines, each followed by a newline (`new_gcode += line + '\n'`). -/
def unlines : List Str → Str
  | [] => []
  | l :: ls => l ++ '\n' :: unlines ls

/-! ## Basic facts about the string primitives -/

theorem find_first_of_zero_succ_le (s : Str) (c : Char) :
    (find_first_of s c 0 + 1) % 2 ^ 64 ≤ s.length := by
  unfold find_first_of
  simp only [List.drop_zero, Nat.zero_add]
  split
  · next h => exact le_trans (Nat.mod_le _ _) h
  · simp [npos]

theorem apply_speed_factor_eq (line : Str) (speed_factor min_print_speed : ℚ) :
    apply_speed_factor line speed_factor min_print_speed
      = some (line.take ((find_first_of line 'F' 0 + 1) % 2 ^ 64)
          ++ insert_speed (max (fl32 (extract_float
                ((line.drop ((find_first_of line 'F' 0 + 1) % 2 ^ 64)).take
                  (find_first_of line ' ' ((find_first_of line 'F' 0 + 1) % 2 ^ 64)))
              * speed_factor)) min_print_speed)
          ++ (line.drop ((find_first_of line 'F' 0 + 1) % 2 ^ 64)).drop
              ((find_first_of line ' ' ((find_first_of line 'F' 0 + 1) % 2 ^ 64) + 2 ^ 64
                - find_first_of line 'F' 0) % 2 ^ 64)) := by
  have h := find_first_of_zero_succ_le line 'F'
  unfold apply_speed_factor substr replace
  simp only [if_pos h]
  rfl

theorem scan_line_isSome (f m : ℚ) (line : Str) (b : Bool) :
    ∃ line1, scan_line f m line b = some line1 := by
  unfold scan_line
  split
  · rw [apply_speed_factor_eq]; exact ⟨_, rfl⟩
  · exact ⟨_, rfl⟩

theorem scan_loop_isSome (f m : ℚ) (ls : List Str) :
    ∀ (b : Bool) (acc : Str), ∃ out, scan_loop f m ls b acc = some out := by
  induction ls with
  | nil => intro b acc; exact ⟨acc, rfl⟩
  | cons line rest ih =>
    intro b acc
    obtain ⟨line1, h1⟩ := scan_line_isSome f m line b
    simp only [scan_loop, h1]
    exact ih _ _

theorem flush_scan_isSome (f m : ℚ) (gcode : Str) : ∃ out, flush_scan f m gcode = some out :=
  scan_loop_isSome f m _ _ _

theorem starts_with_cons_ne (c p : Char) (cs ps : Str) (h : c ≠ p) :
    starts_with (c :: cs) (p :: ps) = false := by
  simp [starts_with, h]

theorem replace_all_cons_ne (c p : Char) (cs ps rep : Str) (h : c ≠ p) :
    replace_all (c :: cs) (p :: ps) rep = c :: replace_all cs (p :: ps) rep := by
  simp [replace_all, replace_all_aux, starts_with_cons_ne c p cs ps h]

theorem flush_resolve_head (gen : GCode) (l : Nat) (v : Int) (g : Str) (c : Char) (cs : Str)
    (hfan : gen.set_fan v false = c :: cs) (hc : c ≠ ';') :
    ∃ rest, flush_resolve gen l v g = c :: rest := by
  unfold flush_resolve
  simp only [hfan, List.cons_append]
  split
  · exact ⟨_, by
      simp only [BRIDGE_FAN_START, BRIDGE_FAN_END, WIPE, EXTRUDE_SET_SPEED, String.toList]
      rw [replace_all_cons_ne _ _ _ _ _ hc, replace_all_cons_ne _ _ _ _ _ hc,
        replace_all_cons_ne _ _ _ _ _ hc, replace_all_cons_ne _ _ _ _ _ hc]⟩
  · exact ⟨_, by
      simp only [BRIDGE_FAN_START, BRIDGE_FAN_END, WIPE, EXTRUDE_SET_SPEED, String.toList]
      rw [replace_all_cons_ne _ _ _ _ _ hc, replace_all_cons_ne _ _ _ _ _ hc,
        replace_all_cons_ne _ _ _ _ _ hc, replace_all_cons_ne _ _ _ _ _ hc]⟩

theorem flush_eq_some (w : CoolingBuffer) :
    ∃ scanned, w.flush = some
      (flush_resolve w.m_gcodegen w.m_layer_id
          (flush_final_fan_speed w.m_gcodegen.config w.m_layer_id w.m_elapsed_time) scanned,
        { w with m_gcode := [], m_elapsed_time := 0, m_object_ids_visited := ∅ }) := by
  unfold CoolingBuffer.flush
  by_cases hc : (w.m_gcodegen.config.cooling
      && decide (flush_speed_factor w.m_gcodegen.config w.m_elapsed_time < 1)) = true
  · obtain ⟨out, hout⟩ := flush_scan_isSome
      (flush_speed_factor w.m_gcodegen.config w.m_elapsed_time)
      (w.m_gcodegen.config.min_print_speed * 60) w.m_gcode
    exact ⟨out, by simp only [hc, if_true, hout]⟩
  · exact ⟨w.m_gcode, by simp only [hc]; rfl⟩

/-! ## The layer accumulator (`append`) -/

/-- Evaluation for C1: objects 1 and 2, both not support, get the same `signature` (1), so
appending object 2 to a window that holds only object 1 finalizes the window and returns its
text instead of the empty text. -/
theorem C1_distinct_producers_share_signature :
    ((1 : Nat), false) ≠ ((2 : Nat), false)
    ∧ append_signature 1 false = 1 ∧ append_signature 2 false = 1
    ∧ (((sampleEmpty 40).append "G1 X1\n".toList 1 0 false).bind
        (fun r => (r.2.append "G1 X2\n".toList 2 0 false).map (fun r2 => r2.1)))
      = some "M106 S20\nG1 X1\n".toList := by
  decide!

/-- Counterexample for C2 as stated: with a command writer whose (non-empty) fan command is
the text `;_WIPE`, appending the same pair twice returns the empty text on the second call,
because the marker erasure of `flush` removes the fan command. -/
theorem C2_counterexample_erased_fan_command :
    (∀ v b, wipeWriterGen.set_fan v b ≠ [])
    ∧ ((wipeWriterEmpty.append [] 1 0 false).bind
        (fun r => (r.2.append "G1 X2\n".toList 1 1 false).map (fun r2 => r2.1))) = some [] := by
  refine ⟨fun v b => by simp [wipeWriterGen, WIPE], ?_⟩
  decide!

/-- C2 (amended): appending a contribution with pair `(p, s)` to an empty window gives the window
holding only that contribution; appending a second contribution with the same pair to it (the
estimator now reading `t2`) returns the text `out` that `flush` returns on that window, with the
first call's layer id, and `out` is non-empty when the fan command is non-empty and does not begin
with `;`; afterwards the buffer is the second contribution's text, the elapsed time is `t2`, the
layer id is the second call's and `visited` holds exactly the one key. -/
theorem C2_dedup_triggers_flush (w0 : CoolingBuffer) (g1 g2 : Str) (p l1 l2 : Nat) (s : Bool)
    (t2 : ℚ)
    (hgcode : w0.m_gcode = []) (helapsed : w0.m_elapsed_time = 0)
    (hvisited : w0.m_object_ids_visited = ∅)
    (hfan : ∀ v, ∃ c cs, w0.m_gcodegen.set_fan v false = c :: cs ∧ c ≠ ';') :
    w0.append g1 p l1 s = some ([],
        ⟨⟨w0.m_gcodegen.config, w0.m_gcodegen.set_fan, 0, w0.m_gcodegen.elapsed_resets + 1⟩,
          g1, w0.m_gcodegen.elapsed_time, l1, {append_signature p s}⟩)
    ∧ ∃ out flushed,
        (⟨⟨w0.m_gcodegen.config, w0.m_gcodegen.set_fan, t2, w0.m_gcodegen.elapsed_resets + 1⟩,
          g1, w0.m_gcodegen.elapsed_time, l1, {append_signature p s}⟩ : CoolingBuffer).flush
          = some (out, flushed)
        ∧ (⟨⟨w0.m_gcodegen.config, w0.m_gcodegen.set_fan, t2, w0.m_gcodegen.elapsed_resets + 1⟩,
          g1, w0.m_gcodegen.elapsed_time, l1, {append_signature p s}⟩ : CoolingBuffer).append
            g2 p l2 s
          = some (out,
              ⟨⟨w0.m_gcodegen.config, w0.m_gcodegen.set_fan, 0, w0.m_gcodegen.elapsed_resets + 2⟩,
                g2, t2, l2, {append_signature p s}⟩)
        ∧ out ≠ [] := by
  constructor
  · simp only [CoolingBuffer.append, hvisited, Finset.not_mem_empty, if_false,
      GCode.get_reset_elapsed_time, hgcode, helapsed, List.nil_append, zero_add,
      insert_emptyc_eq]
  · obtain ⟨scanned, hflush⟩ := flush_eq_some
      (⟨⟨w0.m_gcodegen.config, w0.m_gcodegen.set_fan, t2, w0.m_gcodegen.elapsed_resets + 1⟩,
        g1, w0.m_gcodegen.elapsed_time, l1, {append_signature p s}⟩ : CoolingBuffer)
    obtain ⟨c, cs, hc, hne⟩ := hfan
      (flush_final_fan_speed w0.m_gcodegen.config l1 w0.m_gcodegen.elapsed_time)
    obtain ⟨rest, hrest⟩ := flush_resolve_head
      (⟨w0.m_gcodegen.config, w0.m_gcodegen.set_fan, t2, w0.m_gcodegen.elapsed_resets + 1⟩ : GCode)
      l1 (flush_final_fan_speed w0.m_gcodegen.config l1 w0.m_gcodegen.elapsed_time) scanned c cs
      hc hne
    refine ⟨_, _, hflush, ?_, ?_⟩
    · simp only [CoolingBuffer.append, Finset.mem_singleton, if_true, hflush,
        GCode.get_reset_elapsed_time, List.nil_append, zero_add, insert_emptyc_eq]
    · simp only [hrest]
      exact List.cons_ne_nil _ _

/-- Witness for C2: the sample buffer, whose fan commands begin with `M`. -/
theorem C2_dedup_triggers_flush_witness :
    (sampleEmpty 5).append "G1 X1\n".toList 1 3 false = some ([],
        ⟨⟨sampleConfig, sampleSetFan, 0, 0 + 1⟩, "G1 X1\n".toList, 5, 3,
          {append_signature 1 false}⟩)
    ∧ ∃ out flushed,
        (⟨⟨sampleConfig, sampleSetFan, 7, 0 + 1⟩, "G1 X1\n".toList, 5, 3,
          {append_signature 1 false}⟩ : CoolingBuffer).flush = some (out, flushed)
        ∧ (⟨⟨sampleConfig, sampleSetFan, 7, 0 + 1⟩, "G1 X1\n".toList, 5, 3,
          {append_signature 1 false}⟩ : CoolingBuffer).append "G1 X2\n".toList 1 4 false
          = some (out,
              ⟨⟨sampleConfig, sampleSetFan, 0, 0 + 2⟩, "G1 X2\n".toList, 7, 4,
                {append_signature 1 false}⟩)
        ∧ out ≠ [] :=
  C2_dedup_triggers_flush (sampleEmpty 5) "G1 X1\n".toList "G1 X2\n".toList 1 3 4 false 7
    rfl rfl rfl
    (fun v => by
      by_cases hv : v = 0
      · exact ⟨'M', "107\n".toList, by simp [sampleEmpty, sampleGen, sampleSetFan, hv], by decide⟩
      · exact ⟨'M', "106 S".toList ++ insert_float (v : ℚ) ++ ['\n'],
          by simp [sampleEmpty, sampleGen, sampleSetFan, hv], by decide⟩)

/-- C3: when the key of the contribution is not in `visited`, `append` returns the empty text and
the window becomes exactly: `visited` with the key inserted, the buffer followed by the
instructions, the given layer id, the elapsed time increased by the estimator's reading; the
estimator has been read and reset once (its reading is 0 and its reset count is one higher). -/
theorem C3_append_unvisited (w : CoolingBuffer) (g : Str) (p l : Nat) (s : Bool)
    (h : append_signature p s ∉ w.m_object_ids_visited) :
    w.append g p l s = some ([],
      { m_gcodegen := { w.m_gcodegen with
                          elapsed_time := 0
                          elapsed_resets := w.m_gcodegen.elapsed_resets + 1 }
        m_gcode := w.m_gcode ++ g
        m_elapsed_time := w.m_elapsed_time + w.m_gcodegen.elapsed_time
        m_layer_id := l
        m_object_ids_visited := insert (append_signature p s) w.m_object_ids_visited }) := by
  simp only [CoolingBuffer.append, if_neg h]
  rfl

/-- Witness for C3: a support contribution of object 0 (key 1) appended to a window that has
seen only key 0. -/
theorem C3_append_unvisited_witness :
    append_signature 0 true ∉ ({ sampleEmpty 5 with m_object_ids_visited := {0} }
        : CoolingBuffer).m_object_ids_visited
    ∧ ({ sampleEmpty 5 with m_object_ids_visited := {0} } : CoolingBuffer).append
        "G1 X1\n".toList 0 2 true
      = some ([],
        { m_gcodegen := { (sampleEmpty 5).m_gcodegen with elapsed_time := 0, elapsed_resets := 1 }
          m_gcode := "G1 X1\n".toList
          m_elapsed_time := 0 + 5
          m_layer_id := 2
          m_object_ids_visited := insert (append_signature 0 true) {0} }) :=
  ⟨by decide, C3_append_unvisited _ "G1 X1\n".toList 0 2 true (by decide)⟩

/-! ## Single-precision rounding -/

theorem pow2_eq_zpow (k : Int) : pow2 k = (2 : ℚ) ^ k := by
  unfold pow2
  split
  · next h =>
    obtain ⟨n, rfl⟩ := Int.eq_ofNat_of_zero_le h
    simp
  · next h =>
    have h' : k < 0 := not_le.mp h
    obtain ⟨n, hn⟩ := Int.exists_eq_neg_ofNat h'.le
    subst hn
    simp

theorem pow2_pos (k : Int) : 0 < pow2 k := by
  rw [pow2_eq_zpow]; positivity

theorem pow2_add (a b : Int) : pow2 (a + b) = pow2 a * pow2 b := by
  simp only [pow2_eq_zpow]
  exact zpow_add₀ (by norm_num) a b

theorem pow2_le_pow2 (a b : Int) (h : a ≤ b) : pow2 a ≤ pow2 b := by
  simp only [pow2_eq_zpow]
  exact zpow_le_zpow_right₀ (by norm_num) h

theorem pow2_lt_pow2 (a b : Int) (h : a < b) : pow2 a < pow2 b := by
  simp only [pow2_eq_zpow]
  exact zpow_lt_zpow_right₀ (by norm_num) h

theorem lt_of_pow2_lt_pow2 (a b : Int) (h : pow2 a < pow2 b) : a < b := by
  by_contra hc
  exact absurd (pow2_le_pow2 b a (not_lt.mp hc)) (not_le.mpr h)

theorem pow2_natCast (n : Nat) : pow2 (n : Int) = ((2 ^ n : Nat) : ℚ) := by
  rw [pow2_eq_zpow]; simp

theorem log2_floor_spec (fuel : Nat) : ∀ n, 1 ≤ n → n ≤ fuel →
    2 ^ log2_floor fuel n ≤ n ∧ n < 2 ^ (log2_floor fuel n + 1) := by
  induction fuel with
  | zero => intro n h1 h2; omega
  | succ fuel ih =>
    intro n h1 h2
    unfold log2_floor
    split
    · next h => simp; omega
    · next h =>
      have hn : 2 ≤ n := not_lt.mp h
      obtain ⟨ih1, ih2⟩ := ih (n / 2) (by omega) (by omega)
      constructor
      · rw [pow_succ]; omega
      · rw [pow_succ]; omega

theorem pow2_sub (a b : Int) : pow2 (a - b) = pow2 a / pow2 b := by
  have h := pow2_add (a - b) b
  rw [sub_add_cancel] at h
  rw [h, mul_div_assoc, div_self (pow2_pos b).ne', mul_one]

theorem ilog2_spec (x : ℚ) (hx : 0 < x) : pow2 (ilog2 x) ≤ x ∧ x < pow2 (ilog2 x + 1) := by
  have hnum : 0 < x.num := Rat.num_pos.mpr hx
  have hn1 : 1 ≤ x.num.natAbs := by omega
  have hd1 : 1 ≤ x.den := x.den_pos
  obtain ⟨ha1, ha2⟩ := log2_floor_spec x.num.natAbs x.num.natAbs hn1 le_rfl
  obtain ⟨hb1, hb2⟩ := log2_floor_spec x.den x.den hd1 le_rfl
  set a := log2_floor x.num.natAbs x.num.natAbs with ha
  set b := log2_floor x.den x.den with hb
  have hxe : x = (x.num.natAbs : ℚ) / (x.den : ℚ) := by
    have h := (Rat.num_div_den x).symm
    have hc : ((x.num.natAbs : Nat) : ℚ) = (x.num : ℚ) := by
      have := Int.natAbs_of_nonneg hnum.le
      calc ((x.num.natAbs : Nat) : ℚ) = (((x.num.natAbs : Nat) : Int) : ℚ) :=
            (Int.cast_natCast _).symm
        _ = (x.num : ℚ) := by rw [this]
    rw [hc]
    exact h
  have hdq : (0 : ℚ) < (x.den : ℚ) := by exact_mod_cast hd1
  have ha1q : pow2 a ≤ (x.num.natAbs : ℚ) := by rw [pow2_natCast]; exact_mod_cast ha1
  have ha2q : (x.num.natAbs : ℚ) < pow2 (a + 1) := by
    have := pow2_natCast (a + 1)
    push_cast at this
    rw [this]; exact_mod_cast ha2
  have hb1q : pow2 b ≤ (x.den : ℚ) := by rw [pow2_natCast]; exact_mod_cast hb1
  have hb2q : (x.den : ℚ) < pow2 (b + 1) := by
    have := pow2_natCast (b + 1)
    push_cast at this
    rw [this]; exact_mod_cast hb2
  have hupper : x < pow2 ((a : Int) - b + 1) := by
    rw [show ((a : Int) - b + 1) = (a + 1) - b by ring, pow2_sub]
    rw [hxe]
    calc (x.num.natAbs : ℚ) / (x.den : ℚ) < pow2 (a + 1) / (x.den : ℚ) :=
          div_lt_div_of_pos_right ha2q hdq
      _ ≤ pow2 (a + 1) / pow2 b :=
          div_le_div_of_nonneg_left (pow2_pos _).le (pow2_pos _) hb1q
  have hlower : pow2 ((a : Int) - b - 1) ≤ x := by
    rw [show ((a : Int) - b - 1) = a - (b + 1) by ring, pow2_sub]
    rw [hxe]
    calc pow2 a / pow2 (b + 1) ≤ pow2 a / (x.den : ℚ) :=
          div_le_div_of_nonneg_left (pow2_pos _).le hdq hb2q.le
      _ ≤ (x.num.natAbs : ℚ) / (x.den : ℚ) :=
          div_le_div_of_nonneg_right ha1q hdq.le
  unfold ilog2
  split
  · next h => exact ⟨h, hupper⟩
  · next h =>
    refine ⟨hlower, ?_⟩
    rw [sub_add_cancel]
    exact not_le.mp h

theorem ilog2_le (x : ℚ) (e : Int) (hx : 0 < x) (h : x < pow2 (e + 1)) : ilog2 x ≤ e := by
  have h1 := (ilog2_spec x hx).1
  have := lt_of_pow2_lt_pow2 _ _ (lt_of_le_of_lt h1 h)
  omega

theorem le_ilog2 (x : ℚ) (e : Int) (hx : 0 < x) (h : pow2 e ≤ x) : e ≤ ilog2 x := by
  have h1 := (ilog2_spec x hx).2
  have := lt_of_pow2_lt_pow2 _ _ (lt_of_le_of_lt h h1)
  omega

theorem ilog2_mono (x y : ℚ) (hx : 0 < x) (hxy : x ≤ y) : ilog2 x ≤ ilog2 y :=
  le_ilog2 y _ (lt_of_lt_of_le hx hxy) (le_trans (ilog2_spec x hx).1 hxy)

theorem round_to_even_intCast (n : Int) : round_to_even (n : ℚ) = n := by
  unfold round_to_even
  simp

theorem round_to_even_le (x : ℚ) (N : Int) (h : x ≤ (N : ℚ)) : round_to_even x ≤ N := by
  have hfl : ⌊x⌋ ≤ N := by
    have := Int.floor_le x
    exact_mod_cast (le_trans this h)
  have hcase : ⌊x⌋ = N → x - (⌊x⌋ : ℚ) < 1 / 2 := by
    intro he
    have h1 := Int.floor_le x
    rw [he] at h1 ⊢
    have : x = N := le_antisymm h h1
    rw [this]; norm_num
  unfold round_to_even
  split
  · exact hfl
  · next h1 =>
    have hne : ⌊x⌋ ≠ N := fun he => h1 (hcase he)
    split
    · omega
    · split
      · exact hfl
      · omega

theorem le_round_to_even (x : ℚ) (N : Int) (h : (N : ℚ) ≤ x) : N ≤ round_to_even x := by
  have hfl : N ≤ ⌊x⌋ := Int.le_floor.mpr h
  unfold round_to_even
  split
  · exact hfl
  · split
    · omega
    · split
      · exact hfl
      · omega

theorem pow2_zero : pow2 0 = 1 := by rw [pow2_eq_zpow]; simp

theorem pow2_of_nonneg (k : Int) (h : 0 ≤ k) : pow2 k = (((2 : Int) ^ k.toNat : Int) : ℚ) := by
  unfold pow2
  rw [if_pos h]
  push_cast
  rfl

theorem ulp_exponent_mono (p : Nat) (emin : Int) (x y : ℚ) (hx : x ≠ 0) (hxy : |x| ≤ |y|) :
    ulp_exponent p emin x ≤ ulp_exponent p emin y := by
  unfold ulp_exponent
  exact sub_le_sub_right (max_le_max (ilog2_mono |x| |y| (abs_pos.mpr hx) hxy) le_rfl) _

/-- A multiple of a power of two that is at least the unit in the last place is not changed by
rounding. -/
theorem div_pow2_of_multiple (y : ℚ) (M j k : Int) (hkj : k ≤ j) (hy : y = (M : ℚ) * pow2 j) :
    y / pow2 k = ((M * (2 : Int) ^ (j - k).toNat : Int) : ℚ) := by
  have hk := pow2_pos k
  have hsplit : pow2 j = pow2 (j - k) * pow2 k := by
    rw [← pow2_add, sub_add_cancel]
  rw [div_eq_iff hk.ne', hy, hsplit, pow2_of_nonneg _ (sub_nonneg.mpr hkj)]
  push_cast
  ring

/-- A multiple of a power of two that is at least the unit in the last place is not changed by
rounding. -/
theorem round_float_of_multiple (p : Nat) (emin : Int) (x : ℚ) (m j : Int)
    (hj : ulp_exponent p emin x ≤ j) (hx : x = (m : ℚ) * pow2 j) : round_float p emin x = x := by
  unfold round_float
  split
  · next h => exact h.symm
  · next h =>
    have hk := pow2_pos (ulp_exponent p emin x)
    have hq := div_pow2_of_multiple x m j _ hj hx
    rw [hq, round_to_even_intCast, ← hq, div_mul_cancel₀ _ hk.ne']

theorem round_float_nonneg (p : Nat) (emin : Int) (x : ℚ) (hx : 0 ≤ x) :
    0 ≤ round_float p emin x := by
  unfold round_float
  split
  · exact le_rfl
  · have hk := pow2_pos (ulp_exponent p emin x)
    have h0 : (0 : Int) ≤ round_to_even (x / pow2 (ulp_exponent p emin x)) :=
      le_round_to_even _ 0 (by simpa using div_nonneg hx hk.le)
    exact mul_nonneg (by exact_mod_cast h0) hk.le

theorem round_float_nonpos (p : Nat) (emin : Int) (x : ℚ) (hx : x ≤ 0) :
    round_float p emin x ≤ 0 := by
  unfold round_float
  split
  · exact le_rfl
  · have hk := pow2_pos (ulp_exponent p emin x)
    have h0 : round_to_even (x / pow2 (ulp_exponent p emin x)) ≤ (0 : Int) :=
      round_to_even_le _ 0 (by simpa using div_nonpos_of_nonpos_of_nonneg hx hk.le)
    exact mul_nonpos_of_nonpos_of_nonneg (by exact_mod_cast h0) hk.le

/-- Rounding a positive number does not pass a number of the format above it. -/
theorem round_float_le_of_fixed (p : Nat) (emin : Int) (x y : ℚ) (hx : 0 < x) (hxy : x ≤ y)
    (hy : round_float p emin y = y) : round_float p emin x ≤ y := by
  have hy0 : 0 < y := lt_of_lt_of_le hx hxy
  have hkxy : ulp_exponent p emin x ≤ ulp_exponent p emin y :=
    ulp_exponent_mono p emin x y hx.ne' (by rw [abs_of_pos hx, abs_of_pos hy0]; exact hxy)
  have hkx := pow2_pos (ulp_exponent p emin x)
  have hky := pow2_pos (ulp_exponent p emin y)
  have hy' : y = (round_to_even (y / pow2 (ulp_exponent p emin y)) : ℚ)
      * pow2 (ulp_exponent p emin y) := by
    have h := hy
    unfold round_float at h
    rw [if_neg hy0.ne'] at h
    exact h.symm
  have hq : y / pow2 (ulp_exponent p emin x)
      = ((round_to_even (y / pow2 (ulp_exponent p emin y))
          * (2 : Int) ^ (ulp_exponent p emin y - ulp_exponent p emin x).toNat : Int) : ℚ) :=
    div_pow2_of_multiple y _ _ _ hkxy hy'
  have hle : round_to_even (x / pow2 (ulp_exponent p emin x))
      ≤ round_to_even (y / pow2 (ulp_exponent p emin y))
          * (2 : Int) ^ (ulp_exponent p emin y - ulp_exponent p emin x).toNat :=
    round_to_even_le _ _ (by rw [← hq]; exact div_le_div_of_nonneg_right hxy hkx.le)
  unfold round_float
  rw [if_neg hx.ne']
  have hleq : (round_to_even (x / pow2 (ulp_exponent p emin x)) : ℚ)
      ≤ y / pow2 (ulp_exponent p emin x) := by
    rw [hq]; exact_mod_cast hle
  calc (round_to_even (x / pow2 (ulp_exponent p emin x)) : ℚ) * pow2 (ulp_exponent p emin x)
      ≤ y / pow2 (ulp_exponent p emin x) * pow2 (ulp_exponent p emin x) :=
        mul_le_mul_of_nonneg_right hleq hkx.le
    _ = y := div_mul_cancel₀ _ hkx.ne'

theorem pow2_natCast_pow (p : Nat) : pow2 (p : Int) = (((2 : Int) ^ p : Int) : ℚ) := by
  rw [pow2_eq_zpow]; push_cast; simp

/-- The significand of a rounded number has at most `p` bits, or is `2^p`. -/
theorem round_to_even_significand (p : Nat) (emin : Int) (x : ℚ) (hx : x ≠ 0) :
    -(2 : Int) ^ p ≤ round_to_even (x / pow2 (ulp_exponent p emin x))
    ∧ round_to_even (x / pow2 (ulp_exponent p emin x)) ≤ (2 : Int) ^ p := by
  have hk := pow2_pos (ulp_exponent p emin x)
  have habs : |x| < pow2 (max (ilog2 |x|) emin + 1) :=
    lt_of_lt_of_le (ilog2_spec |x| (abs_pos.mpr hx)).2
      (pow2_le_pow2 _ _ (by have := le_max_left (ilog2 |x|) emin; omega))
  have hsplit : pow2 (max (ilog2 |x|) emin + 1)
      = pow2 (p : Int) * pow2 (ulp_exponent p emin x) := by
    rw [← pow2_add]; unfold ulp_exponent; congr 1; ring
  rw [hsplit, pow2_natCast_pow] at habs
  have h1 : x / pow2 (ulp_exponent p emin x) ≤ (((2 : Int) ^ p : Int) : ℚ) := by
    rw [div_le_iff₀ hk]
    exact le_trans (le_abs_self x) habs.le
  have h2 : (((-(2 : Int) ^ p : Int)) : ℚ) ≤ x / pow2 (ulp_exponent p emin x) := by
    rw [le_div_iff₀ hk]
    have := neg_abs_le x
    push_cast at habs ⊢
    linarith
  exact ⟨le_round_to_even _ _ h2, round_to_even_le _ _ h1⟩

theorem ulp_exponent_le (p : Nat) (emin : Int) (y : ℚ) (E : Int) (hy : y ≠ 0) (hE : emin ≤ E)
    (h : |y| < pow2 (E + 1)) : ulp_exponent p emin y ≤ E - ((p : Int) - 1) := by
  unfold ulp_exponent
  have := ilog2_le |y| E (abs_pos.mpr hy) h
  exact sub_le_sub_right (max_le this hE) _

theorem round_float_idem (p : Nat) (emin : Int) (x : ℚ) (hp : 1 ≤ p) :
    round_float p emin (round_float p emin x) = round_float p emin x := by
  by_cases hx : x = 0
  · subst hx; simp [round_float]
  have hrf : round_float p emin x
      = (round_to_even (x / pow2 (ulp_exponent p emin x)) : ℚ) * pow2 (ulp_exponent p emin x) := by
    unfold round_float; rw [if_neg hx]
  obtain ⟨hlo, hhi⟩ := round_to_even_significand p emin x hx
  generalize round_to_even (x / pow2 (ulp_exponent p emin x)) = m at hrf hlo hhi
  have hkE : ulp_exponent p emin x = max (ilog2 |x|) emin - ((p : Int) - 1) := rfl
  generalize ulp_exponent p emin x = k at hrf hkE
  have hEmin : emin ≤ max (ilog2 |x|) emin := le_max_right _ _
  generalize max (ilog2 |x|) emin = E at hkE hEmin
  rw [hrf]
  by_cases hy : (m : ℚ) * pow2 k = 0
  · rw [hy]; simp [round_float]
  have hk := pow2_pos k
  have hpk : pow2 (E + 1) = (((2 : Int) ^ p : Int) : ℚ) * pow2 k := by
    rw [← pow2_natCast_pow, ← pow2_add]; congr 1; omega
  by_cases hm : -(2 : Int) ^ p < m ∧ m < (2 : Int) ^ p
  · -- the significand fits: same unit in the last place
    apply round_float_of_multiple p emin _ m k _ rfl
    have habs : |(m : ℚ) * pow2 k| < pow2 (E + 1) := by
      rw [abs_mul, abs_of_pos hk, hpk]
      apply mul_lt_mul_of_pos_right _ hk
      rw [abs_lt]
      constructor
      · exact_mod_cast hm.1
      · exact_mod_cast hm.2
    have := ulp_exponent_le p emin _ E hy hEmin habs
    omega
  · -- the significand is `2^p`: the next binade
    have hcases : m = (2 : Int) ^ p ∨ m = -(2 : Int) ^ p := by omega
    have h2 : (2 : Int) ^ p = 2 ^ (p - 1) * 2 := by
      rw [← pow_succ]; congr 1; omega
    have hk1 : pow2 (k + 1) = 2 * pow2 k := by
      rw [pow2_add, mul_comm]; congr 1
    have habs : |(m : ℚ) * pow2 k| < pow2 (E + 1 + 1) := by
      rw [abs_mul, abs_of_pos hk]
      have hE2 : pow2 (E + 1 + 1) = 2 * pow2 (E + 1) := by
        rw [pow2_add, mul_comm]; congr 1
      rw [hE2, hpk]
      have hmabs : |(m : ℚ)| = (((2 : Int) ^ p : Int) : ℚ) := by
        rcases hcases with h | h
        · rw [h]; exact abs_of_nonneg (by positivity)
        · rw [h]; push_cast; rw [abs_neg]; exact abs_of_nonneg (by positivity)
      rw [hmabs]
      have : (0 : ℚ) < (((2 : Int) ^ p : Int) : ℚ) * pow2 k := mul_pos (by positivity) hk
      linarith
    have hle := ulp_exponent_le p emin _ (E + 1) hy (by omega) habs
    rcases hcases with h | h
    · apply round_float_of_multiple p emin _ ((2 : Int) ^ (p - 1)) (k + 1) (by omega)
      rw [h, h2, hk1]; push_cast; ring
    · apply round_float_of_multiple p emin _ (-(2 : Int) ^ (p - 1)) (k + 1) (by omega)
      rw [h, h2, hk1]; push_cast; ring

theorem round_float_intCast (p : Nat) (emin : Int) (n : Int) (hp : 1 ≤ p)
    (hemin : emin ≤ (p : Int) - 1) (hn : |n| ≤ (2 : Int) ^ p) :
    round_float p emin (n : ℚ) = n := by
  by_cases h0 : (n : ℚ) = 0
  · rw [h0]; simp [round_float]
  by_cases hm : |n| < (2 : Int) ^ p
  · apply round_float_of_multiple p emin _ n 0 _ (by rw [pow2_zero, mul_one])
    have habs : |(n : ℚ)| < pow2 ((p : Int) - 1 + 1) := by
      rw [sub_add_cancel, pow2_natCast_pow]
      exact_mod_cast hm
    have := ulp_exponent_le p emin _ ((p : Int) - 1) h0 hemin habs
    omega
  · have hcases : n = (2 : Int) ^ p ∨ n = -(2 : Int) ^ p := by
      have := abs_le.mp hn
      have hge : (2 : Int) ^ p ≤ |n| := not_lt.mp hm
      rcases le_abs'.mp hge with h | h <;> omega
    have h2 : (2 : Int) ^ p = 2 ^ (p - 1) * 2 := by
      rw [← pow_succ]; congr 1; omega
    have hk1 : pow2 1 = 2 := by rw [pow2_eq_zpow]; norm_num
    have habs : |(n : ℚ)| < pow2 ((p : Int) + 1) := by
      have hnabs : |(n : ℚ)| = (((2 : Int) ^ p : Int) : ℚ) := by
        rcases hcases with h | h
        · rw [h]; exact abs_of_nonneg (by positivity)
        · rw [h]; push_cast; rw [abs_neg]; exact abs_of_nonneg (by positivity)
      rw [hnabs, pow2_add, hk1, pow2_natCast_pow]
      have : (0 : ℚ) < (((2 : Int) ^ p : Int) : ℚ) := by positivity
      linarith
    have hle := ulp_exponent_le p emin _ (p : Int) h0 (by omega) habs
    rcases hcases with h | h
    · apply round_float_of_multiple p emin _ ((2 : Int) ^ (p - 1)) 1 (by omega)
      rw [h, h2, hk1]; push_cast; ring
    · apply round_float_of_multiple p emin _ (-(2 : Int) ^ (p - 1)) 1 (by omega)
      rw [h, h2, hk1]; push_cast; ring

theorem fl32_idem (x : ℚ) : fl32 (fl32 x) = fl32 x := round_float_idem 24 (-126) x (by norm_num)

theorem fl32_nonneg (x : ℚ) (hx : 0 ≤ x) : 0 ≤ fl32 x := round_float_nonneg 24 (-126) x hx

theorem fl32_nonpos (x : ℚ) (hx : x ≤ 0) : fl32 x ≤ 0 := round_float_nonpos 24 (-126) x hx

theorem fl32_le_of_fixed (x y : ℚ) (hx : 0 < x) (hxy : x ≤ y) (hy : fl32 y = y) : fl32 x ≤ y :=
  round_float_le_of_fixed 24 (-126) x y hx hxy hy

theorem fl32_intCast (n : Int) (hn : |n| ≤ 2 ^ 24) : fl32 (n : ℚ) = n :=
  round_float_intCast 24 (-126) n (by norm_num) (by norm_num) hn

theorem fl32_FLT_MAX : fl32 FLT_MAX = FLT_MAX := by decide!

theorem fl32_neg_FLT_MAX : fl32 (-FLT_MAX) = -FLT_MAX := by decide!

theorem fl32_to_float (x : ℚ) : fl32 (to_float x) = to_float x := by
  unfold to_float
  split
  · exact fl32_FLT_MAX
  · split
    · exact fl32_neg_FLT_MAX
    · exact fl32_idem x

theorem to_float_nonneg (x : ℚ) (hx : 0 ≤ x) : 0 ≤ to_float x := by
  have h := fl32_nonneg x hx
  unfold to_float
  split
  · decide!
  · split
    · next h1 h2 =>
      have : (0 : ℚ) < FLT_MAX := by decide!
      linarith
    · exact h

/-! ## The fan control law of `flush` -/

theorem flush_fan_speed_f32_default (config : FullPrintConfig) (e : ℚ)
    (h : config.cooling = false ∨ (fl32 (config.slowdown_below_layer_time : ℚ) ≤ e
      ∧ fl32 (config.fan_below_layer_time : ℚ) ≤ e)) :
    flush_fan_speed_f32 config e = if config.fan_always_on then config.min_fan_speed else 0 := by
  unfold flush_fan_speed_f32
  rcases h with h | ⟨h1, h2⟩
  · simp [h]
  · simp only [if_neg (not_lt.mpr h1), if_neg (not_lt.mpr h2)]
    split <;> rfl

theorem flush_fan_speed_f32_full (config : FullPrintConfig) (e : ℚ) (hc : config.cooling = true)
    (h : e < fl32 (config.slowdown_below_layer_time : ℚ)) :
    flush_fan_speed_f32 config e = config.max_fan_speed := by
  unfold flush_fan_speed_f32
  simp only [hc, if_true, if_pos h]

theorem flush_fan_speed_f32_interp (config : FullPrintConfig) (e : ℚ)
    (hc : config.cooling = true) (h1 : fl32 (config.slowdown_below_layer_time : ℚ) ≤ e)
    (h2 : e < fl32 (config.fan_below_layer_time : ℚ)) :
    flush_fan_speed_f32 config e
      = float_to_int (fl32 (fl32 (config.max_fan_speed : ℚ)
          - fl32 (fl32 (fl32 ((config.max_fan_speed - config.min_fan_speed : Int) : ℚ)
                * fl32 (e - fl32 (config.slowdown_below_layer_time : ℚ)))
              / fl32 ((config.fan_below_layer_time - config.slowdown_below_layer_time : Int)
                  : ℚ)))) := by
  unfold flush_fan_speed_f32
  simp only [hc, if_true, if_neg (not_lt.mpr h1), if_pos h2]

theorem flush_fan_speed_f32_eq_exact (config : FullPrintConfig) (e : ℚ)
    (hsd : |config.slowdown_below_layer_time| ≤ 2 ^ 24)
    (hfb : |config.fan_below_layer_time| ≤ 2 ^ 24)
    (h : config.cooling = false ∨ e < (config.slowdown_below_layer_time : ℚ)
      ∨ (config.fan_below_layer_time : ℚ) ≤ e) :
    flush_fan_speed_f32 config e = flush_fan_speed config e := by
  unfold flush_fan_speed_f32 flush_fan_speed
  rw [fl32_intCast _ hsd, fl32_intCast _ hfb]
  rcases h with h | h | h
  · simp [h]
  · simp only [if_pos h]
  · simp only [if_neg (not_lt.mpr h)]

/-- Counterexample for C4 as stated.  First clause: with cooling enabled,
slowdown-below-layer-time 30 and fan-below-layer-time 10, at elapsed 20 the condition
`elapsed >= fan-below-layer-time` holds, yet the fan speed is max-fan-speed (100), not the
always-on default (20).  Third clause: with slowdown 10, fan-below 30, min 20, max 100 and the
`float` elapsed time `12582913 / 2^20` (about 12.000001) the code, which computes in single
precision, gives 92, while `max - (max - min) * (elapsed - slowdown) / (fan-below - slowdown)`
truncated to an integer is 91.  Second clause: the thresholds are converted to `float` for the
comparison, which rounds integers beyond `2^24`; with both thresholds 16777217 and the elapsed
time 16777216, which is below the slowdown threshold, the fan speed is the default 20, not 100. -/
theorem C4_counterexample_thresholds_and_rounding :
    ((({ sampleConfig with slowdown_below_layer_time := 30, fan_below_layer_time := 10 }
        : FullPrintConfig).fan_below_layer_time : Int) : ℚ) ≤ (20 : ℚ)
    ∧ flush_fan_speed_f32
        { sampleConfig with slowdown_below_layer_time := 30, fan_below_layer_time := 10 } 20 = 100
    ∧ flush_fan_speed_f32
        { sampleConfig with slowdown_below_layer_time := 30, fan_below_layer_time := 10 } 20
      ≠ (if ({ sampleConfig with slowdown_below_layer_time := 30, fan_below_layer_time := 10 }
              : FullPrintConfig).fan_always_on
          then ({ sampleConfig with slowdown_below_layer_time := 30, fan_below_layer_time := 10 }
              : FullPrintConfig).min_fan_speed
          else 0)
    ∧ fl32 (12582913 / 1048576) = 12582913 / 1048576
    ∧ (sampleConfig.slowdown_below_layer_time : ℚ) ≤ 12582913 / 1048576
    ∧ (12582913 / 1048576 : ℚ) < (sampleConfig.fan_below_layer_time : ℚ)
    ∧ flush_fan_speed_f32 sampleConfig (12582913 / 1048576) = 92
    ∧ float_to_int ((sampleConfig.max_fan_speed : ℚ)
          - ((sampleConfig.max_fan_speed : ℚ) - (sampleConfig.min_fan_speed : ℚ))
            * (12582913 / 1048576 - (sampleConfig.slowdown_below_layer_time : ℚ))
            / ((sampleConfig.fan_below_layer_time : ℚ)
                - (sampleConfig.slowdown_below_layer_time : ℚ))) = 91
    ∧ (16777216 : ℚ)
        < ((({ sampleConfig with slowdown_below_layer_time := 16777217,
                                 fan_below_layer_time := 16777217 }
            : FullPrintConfig).slowdown_below_layer_time : Int) : ℚ)
    ∧ flush_fan_speed_f32
        { sampleConfig with slowdown_below_layer_time := 16777217,
                            fan_below_layer_time := 16777217 } 16777216 = 20 := by
  decide!

/-- C4 (amended): the fan speed of `flush` before the first-layers override, computed in single
precision as the code does, is the always-on default (min-fan-speed when fan-always-on, else 0) if
cooling is disabled or elapsed is at least both thresholds; it is max-fan-speed if cooling is
enabled and elapsed < slowdown; if cooling is enabled and slowdown <= elapsed < fan-below it is
`max - (max - min) * (elapsed - slowdown) / (fan-below - slowdown)` with every operation rounded to
single precision, truncated to an integer.  The thresholds are compared as converted to `float`,
which is exact for integers of magnitude up to `2^24`; for such thresholds the value agrees with
the law in exact arithmetic outside the interpolation range.  With slowdown 10, fan-below 30,
min 20, max 100 this gives 100 at elapsed 0, 60 at elapsed 20 and the always-on default at
elapsed 40. -/
theorem C4_fan_control_law :
    (∀ (config : FullPrintConfig) (elapsed : ℚ),
      ((config.cooling = false ∨ (fl32 (config.slowdown_below_layer_time : ℚ) ≤ elapsed
            ∧ fl32 (config.fan_below_layer_time : ℚ) ≤ elapsed))
        → flush_fan_speed_f32 config elapsed
            = if config.fan_always_on then config.min_fan_speed else 0)
      ∧ (config.cooling = true ∧ elapsed < fl32 (config.slowdown_below_layer_time : ℚ)
        → flush_fan_speed_f32 config elapsed = config.max_fan_speed)
      ∧ (config.cooling = true ∧ fl32 (config.slowdown_below_layer_time : ℚ) ≤ elapsed
          ∧ elapsed < fl32 (config.fan_below_layer_time : ℚ)
        → flush_fan_speed_f32 config elapsed
            = float_to_int (fl32 (fl32 (config.max_fan_speed : ℚ)
                - fl32 (fl32 (fl32 ((config.max_fan_speed - config.min_fan_speed : Int) : ℚ)
                      * fl32 (elapsed - fl32 (config.slowdown_below_layer_time : ℚ)))
                    / fl32 ((config.fan_below_layer_time
                        - config.slowdown_below_layer_time : Int) : ℚ)))))
      ∧ (|config.slowdown_below_layer_time| ≤ 2 ^ 24 ∧ |config.fan_below_layer_time| ≤ 2 ^ 24
        → fl32 (config.slowdown_below_layer_time : ℚ) = (config.slowdown_below_layer_time : ℚ)
          ∧ fl32 (config.fan_below_layer_time : ℚ) = (config.fan_below_layer_time : ℚ)
          ∧ ((config.cooling = false ∨ elapsed < (config.slowdown_below_layer_time : ℚ)
              ∨ (config.fan_below_layer_time : ℚ) ≤ elapsed)
            → flush_fan_speed_f32 config elapsed = flush_fan_speed config elapsed)))
    ∧ flush_fan_speed_f32 sampleConfig 0 = 100
    ∧ flush_fan_speed_f32 sampleConfig 20 = 60
    ∧ flush_fan_speed_f32 sampleConfig 40 = 20
    ∧ flush_fan_speed_f32 { sampleConfig with fan_always_on := false } 40 = 0 := by
  refine ⟨fun config elapsed =>
    ⟨flush_fan_speed_f32_default config elapsed, ?_, ?_, ?_⟩, ?_, ?_, ?_, ?_⟩
  · rintro ⟨hc, h⟩
    exact flush_fan_speed_f32_full config elapsed hc h
  · rintro ⟨hc, h1, h2⟩
    exact flush_fan_speed_f32_interp config elapsed hc h1 h2
  · rintro ⟨hsd, hfb⟩
    exact ⟨fl32_intCast _ hsd, fl32_intCast _ hfb,
      flush_fan_speed_f32_eq_exact config elapsed hsd hfb⟩
  · decide!
  · decide!
  · decide!
  · decide!

theorem find_first_of_append_cons (pre rest : Str) (c : Char) (h : c ∉ pre) :
    find_first_of (pre ++ c :: rest) c 0 = pre.length := by
  unfold find_first_of
  simp only [List.drop_zero, Nat.zero_add]
  rw [List.indexOf_append_of_not_mem h, List.indexOf_cons_self]
  simp

theorem find_first_of_none (s : Str) (c : Char) (pos : Nat) (h : c ∉ s.drop pos) :
    find_first_of s c pos = npos := by
  unfold find_first_of
  rw [if_neg]
  rw [List.indexOf_lt_length]
  exact h

theorem find_first_of_drop (s mid rest : Str) (c : Char) (pos : Nat) (hdrop : s.drop pos = mid ++ c :: rest)
    (h : c ∉ mid) : find_first_of s c pos = pos + mid.length := by
  unfold find_first_of
  rw [hdrop, List.indexOf_append_of_not_mem h, List.indexOf_cons_self]
  simp

theorem isdigit_facts (c : Char) (h : isdigit c = true) :
    isspace c = false ∧ c ≠ '-' ∧ c ≠ '+' ∧ c ≠ ' ' := by
  refine ⟨?_, ?_, ?_, ?_⟩
  · simp only [isdigit, Bool.and_eq_true, decide_eq_true_eq] at h
    obtain ⟨h1, h2⟩ := h
    simp only [isspace, Bool.or_eq_false_iff, beq_eq_false_iff_ne, ne_eq]
    refine ⟨⟨⟨⟨⟨?_, ?_⟩, ?_⟩, ?_⟩, ?_⟩, ?_⟩ <;> (rintro rfl; revert h1; decide)
  all_goals (rintro rfl; revert h; decide)

theorem extract_decimal_digits (d : Char) (ds tail : Str) (hd : isdigit d = true)
    (hds : ∀ c ∈ ds, isdigit c = true) (htail : tail = [] ∨ ∃ junk, tail = ' ' :: junk) :
    extract_decimal (d :: ds ++ tail) = (digitsVal (d :: ds) : ℚ) := by
  obtain ⟨hsp, hminus, hplus, -⟩ := isdigit_facts d hd
  have hall : ∀ c ∈ d :: ds, isdigit c = true := by
    intro c hc
    rcases List.mem_cons.mp hc with rfl | hc
    · exact hd
    · exact hds c hc
  have htake : (d :: ds ++ tail).takeWhile isdigit = d :: ds := by
    rcases htail with rfl | ⟨junk, rfl⟩
    · simp only [List.append_nil]
      exact List.takeWhile_eq_self_iff.mpr hall
    · rw [List.takeWhile_append_of_pos hall]
      simp [List.takeWhile, isdigit]
  have hdrop : (d :: ds ++ tail).dropWhile isdigit = tail := by
    rcases htail with rfl | ⟨junk, rfl⟩
    · simp only [List.append_nil]
      exact List.dropWhile_eq_nil_iff.mpr hall
    · rw [List.dropWhile_append_of_pos hall]
      simp [List.dropWhile, isdigit]
  have h0 : (d :: ds ++ tail).dropWhile isspace = d :: ds ++ tail := by
    simp [List.dropWhile, hsp]
  unfold extract_decimal
  have hstrip : stripSign (d :: ds ++ tail) = d :: ds ++ tail := by
    simp only [List.cons_append]
    unfold stripSign
    split
    · next h => simp at h; exact absurd h.1 hminus
    · next h => simp at h; exact absurd h.1 hplus
    · rfl
  have hminus' : hasMinus (d :: ds ++ tail) = false := by
    simp only [List.cons_append]
    unfold hasMinus
    split
    · next h => simp at h; exact absurd h.1 hminus
    · rfl
  have hfrac : fracDigits tail = [] := by
    rcases htail with rfl | ⟨junk, rfl⟩ <;> rfl
  have hafter : applyExponent (digitsVal (d :: ds) : ℚ) (afterFrac tail) = (digitsVal (d :: ds) : ℚ) := by
    rcases htail with rfl | ⟨junk, rfl⟩ <;> rfl
  simp only [h0, hstrip, htake, hdrop, hminus', hfrac]
  simpa [show digitsVal [] = 0 from rfl] using hafter

theorem apply_speed_factor_F_space (a r1 r2 : Str) (f m : ℚ)
    (ha : 'F' ∉ a) (hr1 : ' ' ∉ r1)
    (hlen : (a ++ 'F' :: (r1 ++ ' ' :: r2)).length < 2 ^ 64) :
    apply_speed_factor (a ++ 'F' :: (r1 ++ ' ' :: r2)) f m
      = some (a ++ 'F' ::
          (insert_speed (max (fl32 (extract_float (r1 ++ ' ' :: r2.take a.length) * f)) m) ++ r2)) := by
  have hF : find_first_of (a ++ 'F' :: (r1 ++ ' ' :: r2)) 'F' 0 = a.length :=
    find_first_of_append_cons a _ 'F' ha
  have hlt : a.length + 1 + r1.length + 1 < 2 ^ 64 := by
    simp only [List.length_append, List.length_cons] at hlen
    omega
  have hp1 : (a.length + 1) % 2 ^ 64 = a.length + 1 := Nat.mod_eq_of_lt (by omega)
  have hdropF : (a ++ 'F' :: (r1 ++ ' ' :: r2)).drop (a.length + 1) = r1 ++ ' ' :: r2 := by
    rw [show a ++ 'F' :: (r1 ++ ' ' :: r2) = (a ++ ['F']) ++ (r1 ++ ' ' :: r2) by simp]
    rw [List.drop_left' (by simp)]
  have htakeF : (a ++ 'F' :: (r1 ++ ' ' :: r2)).take (a.length + 1) = a ++ ['F'] := by
    rw [show a ++ 'F' :: (r1 ++ ' ' :: r2) = (a ++ ['F']) ++ (r1 ++ ' ' :: r2) by simp]
    rw [List.take_left' (by simp)]
  have hS : find_first_of (a ++ 'F' :: (r1 ++ ' ' :: r2)) ' ' (a.length + 1)
      = a.length + 1 + r1.length :=
    find_first_of_drop _ r1 r2 ' ' _ hdropF hr1
  have hcount : (a.length + 1 + r1.length + 2 ^ 64 - a.length) % 2 ^ 64 = r1.length + 1 := by
    omega
  have hsub : (r1 ++ ' ' :: r2).take (a.length + 1 + r1.length)
      = r1 ++ ' ' :: r2.take a.length := by
    rw [List.take_append_eq_append_take]
    rw [List.take_of_length_le (by omega)]
    rw [show a.length + 1 + r1.length - r1.length = a.length + 1 by omega]
    rfl
  have hrest : (r1 ++ ' ' :: r2).drop (r1.length + 1) = r2 := by
    rw [show r1 ++ ' ' :: r2 = (r1 ++ [' ']) ++ r2 by simp]
    rw [List.drop_left' (by simp)]
  rw [apply_speed_factor_eq, hF, hp1, hS, hdropF, htakeF, hcount, hsub, hrest]
  simp

theorem apply_speed_factor_F_end (a r : Str) (f m : ℚ)
    (ha : 'F' ∉ a) (hr : ' ' ∉ r) (hlen : (a ++ 'F' :: r).length < 2 ^ 64) :
    apply_speed_factor (a ++ 'F' :: r) f m
      = some (a ++ 'F' :: insert_speed (max (fl32 (extract_float r * f)) m)) := by
  have hF : find_first_of (a ++ 'F' :: r) 'F' 0 = a.length :=
    find_first_of_append_cons a _ 'F' ha
  have hlen1 : a.length + 1 + r.length < 2 ^ 64 := by
    simp only [List.length_append, List.length_cons] at hlen
    omega
  have hp1 : (a.length + 1) % 2 ^ 64 = a.length + 1 := Nat.mod_eq_of_lt (by omega)
  have hdropF : (a ++ 'F' :: r).drop (a.length + 1) = r := by
    rw [show a ++ 'F' :: r = (a ++ ['F']) ++ r by simp]
    rw [List.drop_left' (by simp)]
  have htakeF : (a ++ 'F' :: r).take (a.length + 1) = a ++ ['F'] := by
    rw [show a ++ 'F' :: r = (a ++ ['F']) ++ r by simp]
    rw [List.take_left' (by simp)]
  have hS : find_first_of (a ++ 'F' :: r) ' ' (a.length + 1) = npos :=
    find_first_of_none _ _ _ (by rw [hdropF]; exact hr)
  have hcount : (npos + 2 ^ 64 - a.length) % 2 ^ 64 = npos - a.length := by
    unfold npos
    omega
  have hsub : r.take npos = r := List.take_of_length_le (by unfold npos; omega)
  have hrest : r.drop (npos - a.length) = [] :=
    List.drop_of_length_le (by unfold npos; omega)
  rw [apply_speed_factor_eq, hF, hp1, hS, hdropF, htakeF, hcount, hsub, hrest]
  simp

theorem apply_speed_factor_space (r1 r2 : Str) (f m : ℚ)
    (hF : 'F' ∉ r1 ++ ' ' :: r2) (hr1 : ' ' ∉ r1) (hlen : (r1 ++ ' ' :: r2).length < 2 ^ 64) :
    apply_speed_factor (r1 ++ ' ' :: r2) f m
      = some (insert_speed (max (fl32 (extract_float r1 * f)) m) ++ r2) := by
  have hpos : find_first_of (r1 ++ ' ' :: r2) 'F' 0 = npos :=
    find_first_of_none _ _ _ (by simpa using hF)
  have hp1 : (npos + 1) % 2 ^ 64 = 0 := by unfold npos; decide
  have hS : find_first_of (r1 ++ ' ' :: r2) ' ' 0 = r1.length := by
    have := find_first_of_drop (r1 ++ ' ' :: r2) r1 r2 ' ' 0 (by simp) hr1
    simpa using this
  have hlen1 : r1.length + 1 < 2 ^ 64 := by
    simp only [List.length_append, List.length_cons] at hlen
    omega
  have hcount : (r1.length + 2 ^ 64 - npos) % 2 ^ 64 = r1.length + 1 := by
    unfold npos
    omega
  have hrest : (r1 ++ ' ' :: r2).drop (r1.length + 1) = r2 := by
    rw [show r1 ++ ' ' :: r2 = (r1 ++ [' ']) ++ r2 by simp]
    rw [List.drop_left' (by simp)]
  rw [apply_speed_factor_eq, hpos, hp1, hS, hcount]
  simp only [List.drop_zero, List.take_zero, List.nil_append, hrest]
  rw [List.take_left' rfl]

theorem apply_speed_factor_bare (s : Str) (f m : ℚ)
    (hF : 'F' ∉ s) (hs : ' ' ∉ s) (hlen : s.length < 2 ^ 64) :
    apply_speed_factor s f m = some (insert_speed (max (fl32 (extract_float s * f)) m) ++ s) := by
  have hpos : find_first_of s 'F' 0 = npos := find_first_of_none _ _ _ (by simpa using hF)
  have hp1 : (npos + 1) % 2 ^ 64 = 0 := by unfold npos; decide
  have hS : find_first_of s ' ' 0 = npos := find_first_of_none _ _ _ (by simpa using hs)
  have hcount : (npos + 2 ^ 64 - npos) % 2 ^ 64 = 0 := by unfold npos; decide
  have hsub : s.take npos = s := List.take_of_length_le (by unfold npos; omega)
  rw [apply_speed_factor_eq, hpos, hp1, hS, hcount]
  simp only [List.drop_zero, List.take_zero, List.nil_append, hsub]

theorem isdigit_all_cons (d : Char) (ds : Str) (hd : isdigit d = true)
    (hds : ∀ c ∈ ds, isdigit c = true) : ∀ c ∈ d :: ds, isdigit c = true := by
  intro c hc
  rcases List.mem_cons.mp hc with rfl | hc
  · exact hd
  · exact hds c hc

theorem takeWhile_digits (ds tail : Str) (hds : ∀ c ∈ ds, isdigit c = true)
    (htail : tail = [] ∨ ∃ c junk, tail = c :: junk ∧ isdigit c = false) :
    (ds ++ tail).takeWhile isdigit = ds ∧ (ds ++ tail).dropWhile isdigit = tail := by
  rcases htail with rfl | ⟨c, junk, rfl, hc⟩
  · simp only [List.append_nil]
    exact ⟨List.takeWhile_eq_self_iff.mpr hds, List.dropWhile_eq_nil_iff.mpr hds⟩
  · rw [List.takeWhile_append_of_pos hds, List.dropWhile_append_of_pos hds]
    simp [List.takeWhile, List.dropWhile, hc]

theorem extract_decimal_point (d : Char) (ds fp tail : Str) (hd : isdigit d = true)
    (hds : ∀ c ∈ ds, isdigit c = true) (hfp : ∀ c ∈ fp, isdigit c = true)
    (htail : tail = [] ∨ ∃ junk, tail = ' ' :: junk) :
    extract_decimal (d :: ds ++ '.' :: fp ++ tail)
      = (digitsVal (d :: ds) : ℚ) + (digitsVal fp : ℚ) / ((10 ^ fp.length : Nat) : ℚ) := by
  obtain ⟨hsp, hminus, hplus, -⟩ := isdigit_facts d hd
  have hall := isdigit_all_cons d ds hd hds
  have htail' : tail = [] ∨ ∃ c junk, tail = c :: junk ∧ isdigit c = false := by
    rcases htail with h | ⟨junk, h⟩
    · exact Or.inl h
    · exact Or.inr ⟨' ', junk, h, by decide⟩
  have h1 := takeWhile_digits (d :: ds) ('.' :: fp ++ tail) hall
    (Or.inr ⟨'.', fp ++ tail, rfl, by decide⟩)
  have h2 := takeWhile_digits fp tail hfp htail'
  have h0 : (d :: ds ++ '.' :: fp ++ tail).dropWhile isspace = d :: ds ++ '.' :: fp ++ tail := by
    simp [List.dropWhile, hsp]
  have hstrip : stripSign (d :: ds ++ '.' :: fp ++ tail) = d :: ds ++ '.' :: fp ++ tail := by
    simp only [List.cons_append]
    unfold stripSign
    split
    · next h => simp at h; exact absurd h.1 hminus
    · next h => simp at h; exact absurd h.1 hplus
    · rfl
  have hminus' : hasMinus (d :: ds ++ '.' :: fp ++ tail) = false := by
    simp only [List.cons_append]
    unfold hasMinus
    split
    · next h => simp at h; exact absurd h.1 hminus
    · rfl
  have hassoc : d :: ds ++ '.' :: fp ++ tail = (d :: ds) ++ ('.' :: fp ++ tail) := by simp
  have hafter : ∀ v : ℚ, applyExponent v tail = v := by
    intro v
    rcases htail with rfl | ⟨junk, rfl⟩ <;> rfl
  unfold extract_decimal
  simp only [h0, hstrip, hminus']
  rw [hassoc, h1.1, h1.2]
  simp only [fracDigits, afterFrac, List.cons_append]
  rw [h2.1, h2.2, hafter]
  simp

theorem decimal_no_space (num : Str) (v : ℚ) (h : Decimal num v) : ' ' ∉ num := by
  cases h with
  | whole ip _ hip => exact fun hc => (isdigit_facts ' ' (hip _ hc)).2.2.2 rfl
  | point ip fp _ hip hfp =>
    intro hc
    rcases List.mem_append.mp hc with hc | hc
    · exact (isdigit_facts ' ' (hip _ hc)).2.2.2 rfl
    · rcases List.mem_cons.mp hc with hc | hc
      · exact absurd hc (by decide)
      · exact (isdigit_facts ' ' (hfp _ hc)).2.2.2 rfl

theorem extract_decimal_decimal (num : Str) (v : ℚ) (h : Decimal num v) (tail : Str)
    (htail : tail = [] ∨ ∃ junk, tail = ' ' :: junk) : extract_decimal (num ++ tail) = v := by
  cases h with
  | whole ip hne hip =>
    obtain ⟨d, ds, rfl⟩ := List.exists_cons_of_ne_nil hne
    exact extract_decimal_digits d ds tail (hip d (List.mem_cons_self _ _))
      (fun c hc => hip c (List.mem_cons_of_mem _ hc)) htail
  | point ip fp hne hip hfp =>
    obtain ⟨d, ds, rfl⟩ := List.exists_cons_of_ne_nil hne
    exact extract_decimal_point d ds fp tail (hip d (List.mem_cons_self _ _))
      (fun c hc => hip c (List.mem_cons_of_mem _ hc)) hfp htail

theorem extract_float_decimal (num : Str) (v : ℚ) (h : Decimal num v) (tail : Str)
    (htail : tail = [] ∨ ∃ junk, tail = ' ' :: junk) :
    extract_float (num ++ tail) = to_float v := by
  unfold extract_float
  rw [extract_decimal_decimal num v h tail htail]

/-- Evaluation for C8: the line `G1 X10 Y10 ;_EXTRUDE_SET_SPEED` has no feed-rate field, yet
`apply_speed_factor` does not return it unchanged: `find_first_of` gives `npos`, `pos+1` wraps to 0,
and the text up to and including the first space is replaced by the floor value. The scan of
`flush` therefore emits a corrupted line. -/
theorem C8_missing_field_is_rewritten :
    'F' ∉ "G1 X10 Y10 ;_EXTRUDE_SET_SPEED".toList
    ∧ apply_speed_factor "G1 X10 Y10 ;_EXTRUDE_SET_SPEED".toList (1 / 2) 600
        = some "600X10 Y10 ;_EXTRUDE_SET_SPEED".toList
    ∧ flush_scan (1 / 2) 600 "G1 X10 Y10 ;_EXTRUDE_SET_SPEED\n".toList
        = some "600X10 Y10 \n".toList := by
  decide!

/-- Evaluation for C9: on `G1 X10 Y10 F1200 ;_EXTRUDE_SET_SPEED` with factor 1/2 and floor 600 the
replaced range is one character longer than the number, so the space that delimits the field is
removed together with it. -/
theorem C9_delimiting_space_is_removed :
    apply_speed_factor "G1 X10 Y10 F1200 ;_EXTRUDE_SET_SPEED".toList (1 / 2) 600
        = some "G1 X10 Y10 F600;_EXTRUDE_SET_SPEED".toList
    ∧ insert_float (max ((1200 : ℚ) * (1 / 2)) 600) = "600".toList
    ∧ apply_speed_factor "G1 X10 Y10 F1200 ;_EXTRUDE_SET_SPEED".toList (1 / 2) 600
        ≠ some ("G1 X10 Y10 ".toList ++ "F".toList ++ insert_float (max ((1200 : ℚ) * (1 / 2)) 600)
            ++ " ".toList ++ ";_EXTRUDE_SET_SPEED".toList) := by
  decide!

theorem apply_speed_factor_decimal (pre num rest : Str) (v factor floor : ℚ)
    (hpre : 'F' ∉ pre) (hnum : Decimal num v)
    (hlen : (pre ++ 'F' :: (num ++ ' ' :: rest)).length < 2 ^ 64) :
    apply_speed_factor (pre ++ 'F' :: (num ++ ' ' :: rest)) factor floor
        = some (pre ++ 'F' :: (insert_speed (max (fl32 (to_float v * factor)) floor) ++ rest))
    ∧ apply_speed_factor (pre ++ 'F' :: num) factor floor
        = some (pre ++ 'F' :: insert_speed (max (fl32 (to_float v * factor)) floor)) := by
  have hsp := decimal_no_space num v hnum
  constructor
  · rw [apply_speed_factor_F_space pre num rest factor floor hpre hsp hlen,
      extract_float_decimal num v hnum _ (Or.inr ⟨_, rfl⟩)]
  · have h := extract_float_decimal num v hnum [] (Or.inl rfl)
    simp only [List.append_nil] at h
    rw [apply_speed_factor_F_end pre num factor floor hpre hsp (by
      simp only [List.length_append, List.length_cons] at hlen ⊢
      omega), h]

theorem scan_loop_acc (f m : ℚ) (ls : List Str) :
    ∀ (b : Bool) (acc : Str),
      scan_loop f m ls b acc = (scan_loop f m ls b []).map (fun out => acc ++ out) := by
  induction ls with
  | nil => intro b acc; simp [scan_loop]
  | cons line rest ih =>
    intro b acc
    obtain ⟨line1, h1⟩ := scan_line_isSome f m line b
    simp only [scan_loop, h1, List.nil_append]
    rw [ih _ (acc ++ (line1 ++ ['\n'])), ih _ (line1 ++ ['\n'])]
    cases scan_loop f m rest (contains line1 BRIDGE_FAN_START) [] <;> simp

theorem scan_loop_append (f m : ℚ) (xs : List Str) :
    ∀ (b : Bool) (acc : Str), ∃ b1 out,
      scan_loop f m xs b acc = some (acc ++ out)
      ∧ ∀ ys, scan_loop f m (xs ++ ys) b acc = scan_loop f m ys b1 (acc ++ out) := by
  induction xs with
  | nil => intro b acc; exact ⟨b, [], by simp [scan_loop], fun ys => by simp⟩
  | cons line rest ih =>
    intro b acc
    obtain ⟨line1, h1⟩ := scan_line_isSome f m line b
    obtain ⟨b1, out, h2, h3⟩ := ih (contains line1 BRIDGE_FAN_START) (acc ++ (line1 ++ ['\n']))
    refine ⟨b1, (line1 ++ ['\n']) ++ out, ?_, fun ys => ?_⟩
    · simp only [scan_loop, h1, h2, List.append_assoc]
    · have h3' := h3 ys
      simp only [List.cons_append, scan_loop, h1, List.append_eq]
      rw [h3']
      simp only [List.append_assoc]

theorem scan_line_not_eligible (f m : ℚ) (line : Str) (b : Bool)
    (h : scan_eligible line b = false) : scan_line f m line b = some line := by
  simp [scan_line, h]

/-- Counterexample for C7 as stated: the second motion line between `;_BRIDGE_FAN_START` and
`;_BRIDGE_FAN_END` is rewritten by the scan (feed rate 1200 becomes 600 at factor 1/2); only the
line directly after the start marker is left alone. -/
theorem C7_counterexample_second_bridge_line :
    getlines (";_BRIDGE_FAN_START\nG1 X1 F1200 ;_EXTRUDE_SET_SPEED\n".toList
        ++ "G1 X2 F1200 ;_EXTRUDE_SET_SPEED\n;_BRIDGE_FAN_END\n".toList)
      = [";_BRIDGE_FAN_START".toList, "G1 X1 F1200 ;_EXTRUDE_SET_SPEED".toList,
          "G1 X2 F1200 ;_EXTRUDE_SET_SPEED".toList, ";_BRIDGE_FAN_END".toList]
    ∧ flush_scan (1 / 2) 600
        (";_BRIDGE_FAN_START\nG1 X1 F1200 ;_EXTRUDE_SET_SPEED\n".toList
          ++ "G1 X2 F1200 ;_EXTRUDE_SET_SPEED\n;_BRIDGE_FAN_END\n".toList)
      = some (";_BRIDGE_FAN_START\nG1 X1 F1200 ;_EXTRUDE_SET_SPEED\n".toList
          ++ "G1 X2 F600\n;_BRIDGE_FAN_END\n".toList) := by
  decide!

/-- C7 (amended): for every buffer and every speed factor, the line that directly follows a line
carrying `;_BRIDGE_FAN_START` which the scan does not itself rewrite (it is not a `G1` line, or has
no `;_EXTRUDE_SET_SPEED`, or has `;_WIPE`) is emitted by the scan of `flush` exactly as it is in
the buffer, even if it is a `G1` line tagged `;_EXTRUDE_SET_SPEED`: the scanned text is the scan
of the lines before, then the two lines unchanged, then the rest. -/
theorem C7_line_after_bridge_start (f m : ℚ) (gcode : Str) (before after : List Str)
    (prev line : Str)
    (hlines : getlines gcode = before ++ prev :: line :: after)
    (hprev : contains prev BRIDGE_FAN_START = true)
    (hinel : starts_with prev "G1".toList = false ∨ contains prev EXTRUDE_SET_SPEED = false
      ∨ contains prev WIPE = true) :
    ∃ head tail,
      scan_loop f m before false [] = some head
      ∧ flush_scan f m gcode
          = some (head ++ (prev ++ ['\n']) ++ (line ++ ['\n']) ++ tail) := by
  obtain ⟨b1, head, h1, h2⟩ := scan_loop_append f m before false []
  have hp : scan_line f m prev b1 = some prev := by
    apply scan_line_not_eligible
    unfold scan_eligible
    rcases hinel with h | h | h <;> rw [h] <;> simp
  have hl : scan_line f m line true = some line := by
    apply scan_line_not_eligible
    simp [scan_eligible]
  obtain ⟨tail, ht⟩ := scan_loop_isSome f m after (contains line BRIDGE_FAN_START) []
  refine ⟨head, tail, by simpa using h1, ?_⟩
  unfold flush_scan
  rw [hlines, h2]
  simp only [scan_loop, hp, hprev, hl, List.nil_append]
  rw [scan_loop_acc, ht]
  simp

/-- Witness for C7: a start marker on its own line followed by two tagged motion lines. -/
theorem C7_line_after_bridge_start_witness :
    ∃ head tail,
      scan_loop (1 / 2) 600 [] false [] = some head
      ∧ flush_scan (1 / 2) 600
          (";_BRIDGE_FAN_START\nG1 X1 F1200 ;_EXTRUDE_SET_SPEED\n".toList
            ++ "G1 X2 F1200 ;_EXTRUDE_SET_SPEED\n".toList)
          = some (head ++ (";_BRIDGE_FAN_START".toList ++ ['\n'])
              ++ ("G1 X1 F1200 ;_EXTRUDE_SET_SPEED".toList ++ ['\n']) ++ tail) :=
  C7_line_after_bridge_start (1 / 2) 600 _ [] ["G1 X2 F1200 ;_EXTRUDE_SET_SPEED".toList]
    ";_BRIDGE_FAN_START".toList "G1 X1 F1200 ;_EXTRUDE_SET_SPEED".toList
    (by decide) (by decide) (Or.inl (by decide))

/-! ## Marker-safe text -/

theorem starts_with_nil_marker (m : Str) (hm : m ∈ markers) : starts_with [] m = false := by
  simp only [markers, List.mem_cons, List.mem_singleton, List.not_mem_nil, or_false] at hm
  rcases hm with rfl | rfl | rfl | rfl <;> rfl

theorem marker_shape (m : Str) (hm : m ∈ markers) :
    ∃ t, m = ';' :: '_' :: t ∧ ∀ c ∈ t, c ≠ ';' ∧ numChar c = false ∧ c ≠ '\n' ∧ c ≠ ' ' := by
  simp only [markers, List.mem_cons, List.mem_singleton, List.not_mem_nil, or_false] at hm
  rcases hm with rfl | rfl | rfl | rfl
  · exact ⟨"EXTRUDE_SET_SPEED".toList, rfl, by decide⟩
  · exact ⟨"WIPE".toList, rfl, by decide⟩
  · exact ⟨"BRIDGE_FAN_START".toList, rfl, by decide⟩
  · exact ⟨"BRIDGE_FAN_END".toList, rfl, by decide⟩

theorem starts_with_append_self (p x : Str) : starts_with (p ++ x) p = true := by
  induction p with
  | nil => cases x <;> rfl
  | cons c cs ih => simp [starts_with, ih]

theorem starts_with_marker_other (m p : Str) (hm : m ∈ markers) (hp : p ∈ markers) (hne : m ≠ p)
    (x : Str) : starts_with (m ++ x) p = false := by
  simp only [markers, List.mem_cons, List.mem_singleton, List.not_mem_nil, or_false] at hm hp
  rcases hm with rfl | rfl | rfl | rfl <;> rcases hp with rfl | rfl | rfl | rfl <;>
    first
    | exact absurd rfl hne
    | simp [EXTRUDE_SET_SPEED, WIPE, BRIDGE_FAN_START, BRIDGE_FAN_END, starts_with]

theorem markerSafe_of_plain (live : List Str) (w : Str) (hw : ∀ c ∈ w, c ≠ ';') :
    ∀ rest, MarkerSafe live rest → MarkerSafe live (w ++ rest) := by
  induction w with
  | nil => intro rest h; exact h
  | cons c cs ih =>
    intro rest h
    exact MarkerSafe.plain c _ (hw c (List.mem_cons_self _ _))
      (ih (fun d hd => hw d (List.mem_cons_of_mem _ hd)) rest h)

theorem markerSafe_append (live : List Str) (a b : Str) (ha : MarkerSafe live a)
    (hb : MarkerSafe live b) : MarkerSafe live (a ++ b) := by
  induction ha with
  | nil => exact hb
  | marker m rest hm _ ih => rw [List.append_assoc]; exact MarkerSafe.marker m _ hm ih
  | plain c rest hc _ ih => exact MarkerSafe.plain c _ hc ih
  | dead w rest hw hdiv _ ih =>
    rw [List.cons_append, List.append_assoc]
    exact MarkerSafe.dead w _ hw hdiv ih

theorem markerSafe_mono (live live1 : List Str) (s : Str) (hsub : ∀ m ∈ live, m ∈ live1)
    (h : MarkerSafe live s) : MarkerSafe live1 s := by
  induction h with
  | nil => exact MarkerSafe.nil
  | marker m rest hm _ ih => exact MarkerSafe.marker m _ (hsub m hm) ih
  | plain c rest hc _ ih => exact MarkerSafe.plain c _ hc ih
  | dead w rest hw hdiv _ ih => exact MarkerSafe.dead w _ hw hdiv ih

theorem starts_with_comment (c : Char) (x m : Str) (hc : c ≠ '_') (hm : m ∈ markers) :
    starts_with (';' :: c :: x) m = false := by
  obtain ⟨t, rfl, -⟩ := marker_shape m hm
  simp [starts_with, hc]

theorem wellMarked_safe (live : List Str) (s : Str) (h : WellMarked live s) :
    MarkerSafe live s := by
  induction h with
  | nil => exact MarkerSafe.nil
  | marker m rest hm _ ih => exact MarkerSafe.marker m _ hm ih
  | plain c rest hc _ ih => exact MarkerSafe.plain c _ hc ih
  | comment c rest hc hu _ ih =>
    exact MarkerSafe.dead [c] rest (by simpa using hc)
      (fun m hm x => starts_with_comment c _ m hu hm) ih

/-! ## Steps of `replace_all` and `replace_first` over marker-safe text -/

theorem replace_all_aux_skip (pat rep : Str) (s : Str) :
    ∀ k, replace_all_aux pat rep k s = replace_all_aux pat rep 0 (s.drop k) := by
  induction s with
  | nil => intro k; cases k <;> simp [replace_all_aux]
  | cons c cs ih =>
    intro k
    cases k with
    | zero => rfl
    | succ k => simp only [replace_all_aux, List.drop_succ_cons]; exact ih k

theorem replace_all_self (p rest rep : Str) (hp : p ≠ []) :
    replace_all (p ++ rest) p rep = rep ++ replace_all rest p rep := by
  cases p with
  | nil => exact absurd rfl hp
  | cons c cs =>
    have h := starts_with_append_self (c :: cs) rest
    simp only [List.cons_append] at h
    unfold replace_all
    rw [List.cons_append, replace_all_aux, if_pos h, replace_all_aux_skip]
    simp

theorem replace_all_plain (w rest p rep : Str) (hw : ∀ c ∈ w, c ≠ ';') (t : Str)
    (hp : p = ';' :: t) : replace_all (w ++ rest) p rep = w ++ replace_all rest p rep := by
  subst hp
  induction w with
  | nil => rfl
  | cons c cs ih =>
    rw [List.cons_append, replace_all_cons_ne _ _ _ _ _ (hw c (List.mem_cons_self _ _)),
      ih (fun d hd => hw d (List.mem_cons_of_mem _ hd))]
    rfl

theorem replace_all_head_miss (c : Char) (cs p rep : Str) (h : starts_with (c :: cs) p = false) :
    replace_all (c :: cs) p rep = c :: replace_all cs p rep := by
  simp [replace_all, replace_all_aux, h]

theorem replace_all_marker_other (m p rest rep : Str) (hm : m ∈ markers) (hp : p ∈ markers)
    (hne : m ≠ p) : replace_all (m ++ rest) p rep = m ++ replace_all rest p rep := by
  obtain ⟨t, rfl, ht⟩ := marker_shape m hm
  obtain ⟨u, hu, -⟩ := marker_shape p hp
  have h := starts_with_marker_other _ p hm hp hne rest
  simp only [List.cons_append] at h ⊢
  rw [replace_all_head_miss _ _ _ _ h]
  have := replace_all_plain ('_' :: t) rest p rep (by
    intro c hc
    rcases List.mem_cons.mp hc with rfl | hc
    · decide
    · exact (ht c hc).1) _ hu
  simpa using this

theorem replace_all_dead (w rest p rep : Str) (hp : p ∈ markers) (hw : ∀ c ∈ w, c ≠ ';')
    (hdiv : ∀ m ∈ markers, ∀ x, starts_with (';' :: (w ++ x)) m = false) :
    replace_all (';' :: (w ++ rest)) p rep = ';' :: (w ++ replace_all rest p rep) := by
  obtain ⟨u, hu, -⟩ := marker_shape p hp
  rw [replace_all_head_miss _ _ _ _ (hdiv p hp rest), replace_all_plain w rest p rep hw _ hu]

theorem replace_all_nil (p rep : Str) : replace_all [] p rep = [] := rfl

theorem markerSafe_replace_all (live live1 : List Str) (s p rep : Str) (hp : p ∈ markers)
    (hlive : ∀ m ∈ live, m ∈ markers ∧ (m = p ∨ m ∈ live1))
    (hrep : MarkerSafe live1 rep) (h : MarkerSafe live s) :
    MarkerSafe live1 (replace_all s p rep) := by
  obtain ⟨u, hu, -⟩ := marker_shape p hp
  induction h with
  | nil => exact MarkerSafe.nil
  | marker m rest hm _ ih =>
    by_cases hmp : m = p
    · subst hmp
      rw [replace_all_self _ _ _ (by rw [hu]; exact List.cons_ne_nil _ _)]
      exact markerSafe_append _ _ _ hrep ih
    · rw [replace_all_marker_other m p rest rep (hlive m hm).1 hp hmp]
      exact MarkerSafe.marker m _ ((hlive m hm).2.resolve_left hmp) ih
  | plain c rest hc _ ih =>
    rw [hu, replace_all_cons_ne _ _ _ _ _ hc, ← hu]
    exact MarkerSafe.plain c _ hc ih
  | dead w rest hw hdiv _ ih =>
    rw [replace_all_dead w rest p rep hp hw hdiv]
    exact MarkerSafe.dead w _ hw hdiv ih

theorem contains_plain (w rest m : Str) (hm : m ∈ markers) (hw : ∀ c ∈ w, c ≠ ';') :
    contains (w ++ rest) m = contains rest m := by
  obtain ⟨t, rfl, -⟩ := marker_shape m hm
  induction w with
  | nil => rfl
  | cons c cs ih =>
    simp only [List.cons_append, contains,
      starts_with_cons_ne c ';' _ _ (hw c (List.mem_cons_self _ _)), Bool.false_or]
    exact ih (fun d hd => hw d (List.mem_cons_of_mem _ hd))

theorem markerSafe_no_marker (s m : Str) (hm : m ∈ markers) (h : MarkerSafe [] s) :
    contains s m = false := by
  induction h with
  | nil => simp only [contains]; exact starts_with_nil_marker m hm
  | marker m1 rest hm1 _ _ => exact absurd hm1 (List.not_mem_nil _)
  | plain c rest hc _ ih =>
    obtain ⟨t, rfl, -⟩ := marker_shape m hm
    simp only [contains, starts_with_cons_ne c ';' _ _ hc, Bool.false_or]
    exact ih
  | dead w rest hw hdiv _ ih =>
    simp only [contains, hdiv m hm rest, Bool.false_or]
    rw [contains_plain w rest m hm hw]
    exact ih

/-! ## The characters written by `insert_float` and `insert_speed` -/

theorem digitChar_num (d : Nat) : numChar (digitChar d) = true := by
  unfold digitChar
  split <;> decide

theorem fixedDigits_num (w : Nat) : ∀ n, ∀ c ∈ fixedDigits w n, numChar c = true := by
  induction w with
  | zero => intro n c hc; simp [fixedDigits] at hc
  | succ w ih =>
    intro n c hc
    simp only [fixedDigits, List.mem_append, List.mem_singleton] at hc
    rcases hc with hc | rfl
    · exact ih _ c hc
    · exact digitChar_num n

theorem fixedDigits_length (w : Nat) : ∀ n, (fixedDigits w n).length = w := by
  induction w with
  | zero => intro n; rfl
  | succ w ih => intro n; simp [fixedDigits, ih]

theorem mem_stripZeros (ds : Str) (c : Char) (h : c ∈ stripZeros ds) : c ∈ ds := by
  unfold stripZeros at h
  rw [List.mem_reverse] at h
  have := (List.dropWhile_sublist (fun x => x == '0')).subset h
  simpa using this

theorem fracPart_num (ds : Str) (hds : ∀ c ∈ ds, numChar c = true) :
    ∀ c ∈ fracPart ds, numChar c = true := by
  intro c hc
  unfold fracPart at hc
  split at hc
  · simp at hc
  · rcases List.mem_cons.mp hc with rfl | hc
    · decide
    · exact hds c (mem_stripZeros ds c hc)

theorem formatG_num (neg : Bool) (sig : Nat) (x : Int) :
    ∀ c ∈ formatG neg sig x, numChar c = true := by
  intro c hc
  have hfd : ∀ w n, ∀ c ∈ fixedDigits w n, numChar c = true := fixedDigits_num
  have hsign : ∀ c ∈ (if neg = true then ['-'] else ([] : Str)), numChar c = true := by
    intro c hc
    split at hc
    · rw [List.mem_singleton] at hc; subst hc; decide
    · simp at hc
  unfold formatG at hc
  simp only at hc
  split at hc
  · simp only [List.mem_append, List.mem_cons, List.mem_singleton, List.not_mem_nil,
      or_false] at hc
    rcases hc with (((hc | hc) | hc) | hc | hc) | hc
    · exact hsign c hc
    · exact hfd _ _ c (List.mem_of_mem_take hc)
    · exact fracPart_num _ (fun d hd => hfd _ _ d (List.mem_of_mem_drop hd)) c hc
    · subst hc; decide
    · subst hc; split <;> decide
    · exact hfd _ _ c hc
  · split at hc
    · simp only [List.mem_append] at hc
      rcases hc with (hc | hc) | hc
      · exact hsign c hc
      · exact hfd _ _ c (List.mem_of_mem_take hc)
      · exact fracPart_num _ (fun d hd => hfd _ _ d (List.mem_of_mem_drop hd)) c hc
    · simp only [List.mem_append, List.mem_cons, List.mem_singleton, List.not_mem_nil,
        or_false, List.mem_replicate] at hc
      rcases hc with ((hc | hc | hc) | hc) | hc
      · exact hsign c hc
      · subst hc; decide
      · subst hc; decide
      · rw [hc.2]; decide
      · exact hfd _ _ c (mem_stripZeros _ c hc)

theorem formatG_ne_nil (neg : Bool) (sig : Nat) (x : Int) : formatG neg sig x ≠ [] := by
  unfold formatG
  simp only
  split
  · simp
  · split
    · intro h
      have h1 := congrArg List.length h
      simp only [List.length_append, List.length_take, fixedDigits_length, List.length_nil] at h1
      omega
    · simp

theorem insert_float_num (q : ℚ) : ∀ c ∈ insert_float q, numChar c = true := by
  intro c hc
  unfold insert_float at hc
  simp only at hc
  split at hc
  · rw [List.mem_singleton] at hc; subst hc; decide
  · exact formatG_num _ _ _ c hc

theorem insert_float_ne_nil (q : ℚ) : insert_float q ≠ [] := by
  unfold insert_float
  simp only
  split
  · exact List.cons_ne_nil _ _
  · exact formatG_ne_nil _ _ _

theorem insert_speed_num (q : ℚ) : ∀ c ∈ insert_speed q, numChar c = true := by
  intro c hc
  unfold insert_speed at hc
  split at hc
  · exact (show ∀ c ∈ "inf".toList, numChar c = true by decide) c hc
  · split at hc
    · exact (show ∀ c ∈ "-inf".toList, numChar c = true by decide) c hc
    · exact insert_float_num q c hc

theorem insert_speed_ne_nil (q : ℚ) : insert_speed q ≠ [] := by
  unfold insert_speed
  split
  · decide
  · split
    · decide
    · exact insert_float_ne_nil q

theorem numChar_ne_semicolon (c : Char) (h : numChar c = true) : c ≠ ';' := by
  rintro rfl
  revert h
  decide

/-! ## Splitting text at the first occurrence of a character -/

theorem exists_first_occurrence (c : Char) (s : Str) (h : c ∈ s) :
    ∃ a b, s = a ++ c :: b ∧ c ∉ a := by
  induction s with
  | nil => exact absurd h (List.not_mem_nil _)
  | cons d ds ih =>
    by_cases hd : d = c
    · exact ⟨[], ds, by simp [hd], List.not_mem_nil _⟩
    · have hc : c ∈ ds := by
        rcases List.mem_cons.mp h with h | h
        · exact absurd h.symm hd
        · exact h
      obtain ⟨a, b, hab, ha⟩ := ih hc
      refine ⟨d :: a, b, by simp [hab], ?_⟩
      intro hmem
      rcases List.mem_cons.mp hmem with h | h
      · exact hd h.symm
      · exact ha h

theorem split_past (c : Char) (m : Str) :
    ∀ (r a rest : Str), m ++ r = a ++ c :: rest → c ∉ m →
      ∃ a1, a = m ++ a1 ∧ r = a1 ++ c :: rest := by
  induction m with
  | nil => intro r a rest h _; exact ⟨a, rfl, by simpa using h⟩
  | cons d ds ih =>
    intro r a rest h hm
    cases a with
    | nil =>
      simp only [List.cons_append, List.nil_append, List.cons.injEq] at h
      exact absurd (List.mem_cons_self d ds) (h.1 ▸ hm)
    | cons e es =>
      simp only [List.cons_append, List.cons.injEq] at h
      obtain ⟨rfl, h2⟩ := h
      obtain ⟨a1, ha1, hr⟩ := ih r es rest h2 (fun hc => hm (List.mem_cons_of_mem _ hc))
      exact ⟨a1, by simp [ha1], hr⟩

theorem first_occurrence_unique (c : Char) (a1 : Str) :
    ∀ (r1 a2 r2 : Str), a1 ++ c :: r1 = a2 ++ c :: r2 → c ∉ a1 → c ∉ a2 → a1 = a2 ∧ r1 = r2 := by
  induction a1 with
  | nil =>
    intro r1 a2 r2 h _ h2
    cases a2 with
    | nil => simpa using h
    | cons e es =>
      simp only [List.nil_append, List.cons_append, List.cons.injEq] at h
      exact absurd (List.mem_cons_self e es) (h.1 ▸ h2)
  | cons d ds ih =>
    intro r1 a2 r2 h h1 h2
    cases a2 with
    | nil =>
      simp only [List.nil_append, List.cons_append, List.cons.injEq] at h
      exact absurd (List.mem_cons_self d ds) (h.1 ▸ h1)
    | cons e es =>
      simp only [List.cons_append, List.cons.injEq] at h
      obtain ⟨rfl, h3⟩ := h
      obtain ⟨h4, h5⟩ := ih r1 es r2 h3 (fun hc => h1 (List.mem_cons_of_mem _ hc))
        (fun hc => h2 (List.mem_cons_of_mem _ hc))
      exact ⟨by rw [h4], h5⟩

/-! ## Well-marked text: cutting at a newline or a space, and cutting after the first `F` -/

theorem marker_not_mem (m : Str) (hm : m ∈ markers) (c : Char)
    (hc : c = '\n' ∨ c = ' ' ∨ numChar c = true) : c ∉ m := by
  obtain ⟨t, rfl, ht⟩ := marker_shape m hm
  intro hmem
  rcases List.mem_cons.mp hmem with h | hmem
  · subst h; rcases hc with h | h | h <;> revert h <;> decide
  rcases List.mem_cons.mp hmem with h | hmem
  · subst h; rcases hc with h | h | h <;> revert h <;> decide
  · obtain ⟨-, h1, h2, h3⟩ := ht c hmem
    rcases hc with h | h | h
    · exact h2 h
    · exact h3 h
    · rw [h1] at h; exact Bool.noConfusion h

theorem wellMarked_split (live : List Str) (hlive : ∀ m ∈ live, m ∈ markers) (c : Char)
    (hc : c = '\n' ∨ c = ' ') (s : Str) (h : WellMarked live s) :
    ∀ a b, s = a ++ c :: b → WellMarked live (a ++ [c]) ∧ WellMarked live b := by
  have hsemi : c ≠ ';' := by rcases hc with rfl | rfl <;> decide
  have hund : c ≠ '_' := by rcases hc with rfl | rfl <;> decide
  induction h with
  | nil => intro a b hab; simp at hab
  | marker m rest hm _ ih =>
    intro a b hab
    obtain ⟨a1, rfl, hr⟩ := split_past c m rest a b hab
      (marker_not_mem m (hlive m hm) c (by rcases hc with h | h <;> simp [h]))
    obtain ⟨h1, h2⟩ := ih a1 b hr
    exact ⟨by rw [List.append_assoc]; exact WellMarked.marker m _ hm h1, h2⟩
  | plain d rest hd hrest ih =>
    intro a b hab
    cases a with
    | nil =>
      simp only [List.nil_append, List.cons.injEq] at hab
      obtain ⟨rfl, rfl⟩ := hab
      exact ⟨WellMarked.plain _ _ hsemi WellMarked.nil, hrest⟩
    | cons e es =>
      simp only [List.cons_append, List.cons.injEq] at hab
      obtain ⟨rfl, h2⟩ := hab
      obtain ⟨h3, h4⟩ := ih es b h2
      exact ⟨WellMarked.plain _ _ hd h3, h4⟩
  | comment d rest hd hu hrest ih =>
    intro a b hab
    cases a with
    | nil =>
      simp only [List.nil_append, List.cons.injEq] at hab
      exact absurd hab.1.symm hsemi
    | cons e es =>
      simp only [List.cons_append, List.cons.injEq] at hab
      obtain ⟨rfl, h2⟩ := hab
      cases es with
      | nil =>
        simp only [List.nil_append, List.cons.injEq] at h2
        obtain ⟨rfl, rfl⟩ := h2
        exact ⟨WellMarked.comment _ _ hsemi hund WellMarked.nil, hrest⟩
      | cons e2 es2 =>
        simp only [List.cons_append, List.cons.injEq] at h2
        obtain ⟨rfl, h3⟩ := h2
        obtain ⟨h4, h5⟩ := ih es2 b h3
        exact ⟨WellMarked.comment _ _ hd hu h4, h5⟩

theorem wellMarked_append_newline (live : List Str) (s : Str) (h : WellMarked live s) :
    WellMarked live (s ++ ['\n']) := by
  induction h with
  | nil => exact WellMarked.plain _ _ (by decide) WellMarked.nil
  | marker m rest hm _ ih => rw [List.append_assoc]; exact WellMarked.marker m _ hm ih
  | plain c rest hc _ ih => exact WellMarked.plain c _ hc ih
  | comment c rest hc hu _ ih => exact WellMarked.comment c _ hc hu ih

theorem markerSafe_of_num (live : List Str) (n : Str) (hn : ∀ c ∈ n, numChar c = true) :
    MarkerSafe live n := by
  have := markerSafe_of_plain live n (fun c hc => numChar_ne_semicolon c (hn c hc)) []
    MarkerSafe.nil
  simpa using this

theorem cut_bridge_dead (n0 : Char) (ns : Str) (hn0 : numChar n0 = true) (m : Str)
    (hm : m ∈ markers) (x : Str) :
    starts_with (';' :: ("_BRIDGE_F".toList ++ n0 :: ns ++ x)) m = false := by
  have hA : n0 ≠ 'A' := by rintro rfl; revert hn0; decide
  simp only [markers, List.mem_cons, List.mem_singleton, List.not_mem_nil, or_false] at hm
  rcases hm with rfl | rfl | rfl | rfl <;>
    simp [EXTRUDE_SET_SPEED, WIPE, BRIDGE_FAN_START, BRIDGE_FAN_END, starts_with, hA]

theorem wellMarked_cut_after_F (n : Str) (hn : ∀ c ∈ n, numChar c = true) (hne : n ≠ [])
    (s : Str) (h : WellMarked markers s) :
    ∀ a rest, s = a ++ 'F' :: rest → 'F' ∉ a → MarkerSafe markers (a ++ 'F' :: n) := by
  have hnsafe : MarkerSafe markers n := markerSafe_of_num markers n hn
  induction h with
  | nil => intro a rest hab; simp at hab
  | marker m rest1 hm _ ih =>
    intro a rest hab ha
    by_cases hF : 'F' ∈ m
    · -- the first `F` of the text lies inside a bridge marker
      have hbridge : ∃ t, m = ";_BRIDGE_".toList ++ 'F' :: t := by
        simp only [markers, List.mem_cons, List.mem_singleton, List.not_mem_nil, or_false] at hm
        rcases hm with rfl | rfl | rfl | rfl
        · exact absurd hF (by decide)
        · exact absurd hF (by decide)
        · exact ⟨"AN_START".toList, rfl⟩
        · exact ⟨"AN_END".toList, rfl⟩
      obtain ⟨t, rfl⟩ := hbridge
      rw [List.append_assoc, List.cons_append] at hab
      obtain ⟨rfl, -⟩ := first_occurrence_unique 'F' _ _ _ _ hab.symm ha (by decide)
      obtain ⟨n0, ns, rfl⟩ := List.exists_cons_of_ne_nil hne
      have := @MarkerSafe.dead markers ("_BRIDGE_F".toList ++ n0 :: ns) []
        (by
          intro c hc
          rcases List.mem_append.mp hc with hc | hc
          · exact (show ∀ c ∈ "_BRIDGE_F".toList, c ≠ ';' by decide) c hc
          · exact numChar_ne_semicolon c (hn c hc))
        (fun m hm x => by
          have := cut_bridge_dead n0 ns (hn n0 (List.mem_cons_self _ _)) m hm x
          simpa using this)
        MarkerSafe.nil
      simpa using this
    · obtain ⟨a1, rfl, hr⟩ := split_past 'F' m rest1 a rest hab hF
      rw [List.append_assoc]
      exact MarkerSafe.marker m _ hm (ih a1 rest hr (fun hc => ha (List.mem_append_right _ hc)))
  | plain d rest1 hd _ ih =>
    intro a rest hab ha
    cases a with
    | nil =>
      simp only [List.nil_append, List.cons.injEq] at hab
      obtain ⟨rfl, -⟩ := hab
      exact MarkerSafe.plain _ _ hd hnsafe
    | cons e es =>
      simp only [List.cons_append, List.cons.injEq] at hab
      obtain ⟨rfl, h2⟩ := hab
      exact MarkerSafe.plain _ _ hd (ih es rest h2 (fun hc => ha (List.mem_cons_of_mem _ hc)))
  | comment d rest1 hd hu _ ih =>
    intro a rest hab ha
    cases a with
    | nil =>
      simp only [List.nil_append, List.cons.injEq] at hab
      exact absurd hab.1 (by decide)
    | cons e es =>
      simp only [List.cons_append, List.cons.injEq] at hab
      obtain ⟨rfl, h2⟩ := hab
      cases es with
      | nil =>
        simp only [List.nil_append, List.cons.injEq] at h2
        obtain ⟨rfl, -⟩ := h2
        exact MarkerSafe.dead ['F'] n (by decide)
          (fun m hm x => starts_with_comment 'F' _ m (by decide) hm) hnsafe
      | cons e2 es2 =>
        simp only [List.cons_append, List.cons.injEq] at h2
        obtain ⟨rfl, h3⟩ := h2
        exact MarkerSafe.dead [d] _ (by simpa using hd)
          (fun m hm x => starts_with_comment d _ m hu hm)
          (ih es2 rest h3 (fun hc =>
            ha (List.mem_cons_of_mem _ (List.mem_cons_of_mem _ hc))))

/-! ## `replace_first` over marker-safe text -/

theorem replace_first_cons_ne (c p : Char) (cs ps rep : Str) (h : c ≠ p) :
    replace_first (c :: cs) (p :: ps) rep = c :: replace_first cs (p :: ps) rep := by
  simp [replace_first, starts_with_cons_ne c p cs ps h]

theorem replace_first_head_miss (c : Char) (cs p rep : Str)
    (h : starts_with (c :: cs) p = false) :
    replace_first (c :: cs) p rep = c :: replace_first cs p rep := by
  simp [replace_first, h]

theorem replace_first_self (p rest rep : Str) (hp : p ≠ []) :
    replace_first (p ++ rest) p rep = rep ++ rest := by
  cases p with
  | nil => exact absurd rfl hp
  | cons c cs =>
    have h := starts_with_append_self (c :: cs) rest
    simp only [List.cons_append] at h
    rw [List.cons_append, replace_first, if_pos h]
    have : (c :: (cs ++ rest)).drop (c :: cs).length = rest := by
      rw [show c :: (cs ++ rest) = (c :: cs) ++ rest by rfl, List.drop_left' rfl]
    rw [this]

theorem replace_first_plain (w rest p rep : Str) (hw : ∀ c ∈ w, c ≠ ';') (t : Str)
    (hp : p = ';' :: t) : replace_first (w ++ rest) p rep = w ++ replace_first rest p rep := by
  subst hp
  induction w with
  | nil => rfl
  | cons c cs ih =>
    rw [List.cons_append, replace_first_cons_ne _ _ _ _ _ (hw c (List.mem_cons_self _ _)),
      ih (fun d hd => hw d (List.mem_cons_of_mem _ hd))]
    rfl

theorem markerSafe_replace_first (live : List Str) (hlive : ∀ m ∈ live, m ∈ markers)
    (s p : Str) (hp : p ∈ markers) (h : MarkerSafe live s) :
    MarkerSafe live (replace_first s p []) := by
  obtain ⟨u, hu, -⟩ := marker_shape p hp
  induction h with
  | nil =>
    rw [hu]
    exact MarkerSafe.nil
  | marker m rest hm hrest ih =>
    by_cases hmp : m = p
    · subst hmp
      rw [replace_first_self _ _ _ (by rw [hu]; exact List.cons_ne_nil _ _)]
      exact hrest
    · obtain ⟨t, rfl, ht⟩ := marker_shape m (hlive m hm)
      have h := starts_with_marker_other _ p (hlive _ hm) hp hmp rest
      simp only [List.cons_append] at h ⊢
      rw [replace_first_head_miss _ _ _ _ h]
      have h2 := replace_first_plain ('_' :: t) rest p [] (by
        intro c hc
        rcases List.mem_cons.mp hc with rfl | hc
        · decide
        · exact (ht c hc).1) _ hu
      simp only [List.cons_append] at h2
      rw [h2]
      exact MarkerSafe.marker (';' :: '_' :: t) _ hm ih
  | plain c rest hc _ ih =>
    rw [hu, replace_first_cons_ne _ _ _ _ _ hc, ← hu]
    exact MarkerSafe.plain c _ hc ih
  | dead w rest hw hdiv _ ih =>
    rw [replace_first_head_miss _ _ _ _ (hdiv p hp rest), replace_first_plain w rest p [] hw _ hu]
    exact MarkerSafe.dead w _ hw hdiv ih

theorem starts_with_append_char (c : Char) (s : Str) :
    ∀ p : Str, c ∉ p → starts_with (s ++ [c]) p = starts_with s p := by
  induction s with
  | nil =>
    intro p hp
    cases p with
    | nil => rfl
    | cons q qs =>
      have : c ≠ q := fun h => hp (h ▸ List.mem_cons_self _ _)
      simp [starts_with, this]
  | cons d ds ih =>
    intro p hp
    cases p with
    | nil => rfl
    | cons q qs =>
      simp only [List.cons_append, starts_with, List.append_eq]
      rw [ih qs (fun h => hp (List.mem_cons_of_mem _ h))]

theorem starts_with_length (s : Str) :
    ∀ p : Str, starts_with s p = true → p.length ≤ s.length := by
  induction s with
  | nil =>
    intro p hp
    cases p with
    | nil => simp
    | cons q qs => simp [starts_with] at hp
  | cons d ds ih =>
    intro p hp
    cases p with
    | nil => simp
    | cons q qs =>
      simp only [starts_with, Bool.and_eq_true] at hp
      simpa using ih qs hp.2

theorem replace_first_append_char (c : Char) (p : Str) (hp : c ∉ p) (hne : p ≠ []) (s : Str) :
    replace_first (s ++ [c]) p [] = replace_first s p [] ++ [c] := by
  induction s with
  | nil =>
    cases p with
    | nil => exact absurd rfl hne
    | cons q qs =>
      have : c ≠ q := fun h => hp (h ▸ List.mem_cons_self _ _)
      simp [replace_first, starts_with, this]
  | cons d ds ih =>
    have h1 := starts_with_append_char c (d :: ds) p hp
    simp only [List.cons_append] at h1 ⊢
    by_cases hs : starts_with (d :: ds) p = true
    · have hlen := starts_with_length _ _ hs
      rw [replace_first, replace_first, if_pos (h1.trans hs), if_pos hs]
      simp only [List.nil_append]
      rw [show d :: (ds ++ [c]) = (d :: ds) ++ [c] by rfl, List.drop_append_of_le_length hlen]
    · have hs' : starts_with (d :: ds) p = false := by simpa using hs
      rw [replace_first, replace_first, if_neg (by rw [h1, hs']; simp), if_neg hs, ih]
      rfl

/-! ## The lines read by the scan -/

theorem getlines_line (l : Str) (hl : '\n' ∉ l) (g : Str) :
    getlines (l ++ '\n' :: g) = l :: getlines g := by
  induction l with
  | nil => simp [getlines]
  | cons c cs ih =>
    have hc : c ≠ '\n' := fun h => hl (h ▸ List.mem_cons_self _ _)
    rw [List.cons_append, getlines, if_neg hc, ih (fun h => hl (List.mem_cons_of_mem _ h))]

theorem getlines_last (l : Str) (hl : '\n' ∉ l) (hne : l ≠ []) : getlines l = [l] := by
  induction l with
  | nil => exact absurd rfl hne
  | cons c cs ih =>
    have hc : c ≠ '\n' := fun h => hl (h ▸ List.mem_cons_self _ _)
    cases cs with
    | nil => simp [getlines, hc]
    | cons d ds =>
      rw [getlines, if_neg hc, ih (fun h => hl (List.mem_cons_of_mem _ h)) (List.cons_ne_nil _ _)]

/-! ## The scan keeps text marker-safe -/

theorem markers_subset : ∀ m ∈ markers, m ∈ markers := fun _ h => h

theorem markerSafe_newline (live : List Str) : MarkerSafe live ['\n'] :=
  MarkerSafe.plain _ _ (by decide) MarkerSafe.nil

theorem apply_speed_factor_safe (f m : ℚ) (l : Str) (hwm : WellMarked markers (l ++ ['\n']))
    (hlen : l.length < 2 ^ 64) :
    ∃ l1, apply_speed_factor l f m = some l1 ∧ MarkerSafe markers (l1 ++ ['\n']) := by
  by_cases hF : 'F' ∈ l
  · obtain ⟨a, r, rfl, ha⟩ := exists_first_occurrence 'F' l hF
    by_cases hs : ' ' ∈ r
    · obtain ⟨r1, r2, rfl, hr1⟩ := exists_first_occurrence ' ' r hs
      refine ⟨_, apply_speed_factor_F_space a r1 r2 f m ha hr1 hlen, ?_⟩
      have hcut := wellMarked_cut_after_F
        (insert_speed (max (fl32 (extract_float (r1 ++ ' ' :: r2.take a.length) * f)) m))
        (insert_speed_num _) (insert_speed_ne_nil _) _ hwm a ((r1 ++ ' ' :: r2) ++ ['\n'])
        (by simp) ha
      have hsplit := (wellMarked_split markers markers_subset ' ' (Or.inr rfl) _ hwm
        (a ++ 'F' :: r1) (r2 ++ ['\n']) (by simp)).2
      have := markerSafe_append _ _ _ hcut (wellMarked_safe _ _ hsplit)
      simpa using this
    · refine ⟨_, apply_speed_factor_F_end a r f m ha hs hlen, ?_⟩
      have hcut := wellMarked_cut_after_F
        (insert_speed (max (fl32 (extract_float r * f)) m))
        (insert_speed_num _) (insert_speed_ne_nil _) _ hwm a (r ++ ['\n']) (by simp) ha
      have := markerSafe_append _ _ _ hcut (markerSafe_newline markers)
      simpa using this
  · by_cases hs : ' ' ∈ l
    · obtain ⟨r1, r2, rfl, hr1⟩ := exists_first_occurrence ' ' l hs
      refine ⟨_, apply_speed_factor_space r1 r2 f m hF hr1 hlen, ?_⟩
      have hsplit := (wellMarked_split markers markers_subset ' ' (Or.inr rfl) _ hwm
        r1 (r2 ++ ['\n']) (by simp)).2
      have := markerSafe_append _ _ _
        (markerSafe_of_num markers (insert_speed (max (fl32 (extract_float r1 * f)) m))
          (insert_speed_num _)) (wellMarked_safe _ _ hsplit)
      simpa using this
    · refine ⟨_, apply_speed_factor_bare l f m hF hs hlen, ?_⟩
      have := markerSafe_append _ _ _
        (markerSafe_of_num markers (insert_speed (max (fl32 (extract_float l * f)) m))
          (insert_speed_num _)) (wellMarked_safe _ _ hwm)
      simpa using this

theorem EXTRUDE_SET_SPEED_mem : EXTRUDE_SET_SPEED ∈ markers := by simp [markers]

theorem WIPE_mem : WIPE ∈ markers := by simp [markers]

theorem BRIDGE_FAN_START_mem : BRIDGE_FAN_START ∈ markers := by simp [markers]

theorem BRIDGE_FAN_END_mem : BRIDGE_FAN_END ∈ markers := by simp [markers]

theorem scan_line_safe (f m : ℚ) (l : Str) (b : Bool)
    (hwm : WellMarked markers (l ++ ['\n'])) (hlen : l.length < 2 ^ 64) :
    ∃ l1, scan_line f m l b = some l1 ∧ MarkerSafe markers (l1 ++ ['\n']) := by
  unfold scan_line
  split
  · obtain ⟨l1, h1, h2⟩ := apply_speed_factor_safe f m l hwm hlen
    refine ⟨replace_first l1 EXTRUDE_SET_SPEED [], by rw [h1], ?_⟩
    have h3 := markerSafe_replace_first markers markers_subset _ EXTRUDE_SET_SPEED
      EXTRUDE_SET_SPEED_mem h2
    rw [replace_first_append_char '\n' EXTRUDE_SET_SPEED (by decide) (by decide)] at h3
    exact h3
  · exact ⟨l, rfl, wellMarked_safe _ _ hwm⟩

theorem flush_scan_safe (f m : ℚ) :
    ∀ (n : Nat) (g : Str), g.length ≤ n → WellMarked markers g → g.length < 2 ^ 64 →
      ∀ b, ∃ out, scan_loop f m (getlines g) b [] = some out ∧ MarkerSafe markers out := by
  intro n
  induction n with
  | zero =>
    intro g hn _ _ b
    have : g = [] := List.eq_nil_of_length_eq_zero (Nat.le_zero.mp hn)
    subst this
    exact ⟨[], rfl, MarkerSafe.nil⟩
  | succ n ih =>
    intro g hn hwm hlen b
    by_cases hnl : '\n' ∈ g
    · obtain ⟨l, g2, rfl, hl⟩ := exists_first_occurrence '\n' g hnl
      obtain ⟨hwl, hw2⟩ := wellMarked_split markers markers_subset '\n' (Or.inl rfl) _ hwm
        l g2 rfl
      have hlen2 : l.length + 1 + g2.length < 2 ^ 64 := by
        simp only [List.length_append, List.length_cons] at hlen
        omega
      have hn2 : g2.length ≤ n := by
        simp only [List.length_append, List.length_cons] at hn
        omega
      obtain ⟨l1, h1, hs1⟩ := scan_line_safe f m l b hwl (by omega)
      obtain ⟨out2, h2, hs2⟩ := ih g2 hn2 hw2 (by omega) (contains l1 BRIDGE_FAN_START)
      refine ⟨(l1 ++ ['\n']) ++ out2, ?_, markerSafe_append _ _ _ hs1 hs2⟩
      rw [getlines_line l hl, scan_loop]
      simp only [h1, List.nil_append]
      rw [scan_loop_acc, h2]
      rfl
    · by_cases hne : g = []
      · subst hne
        exact ⟨[], rfl, MarkerSafe.nil⟩
      · obtain ⟨l1, h1, hs1⟩ := scan_line_safe f m g b (wellMarked_append_newline _ _ hwm) hlen
        refine ⟨l1 ++ ['\n'], ?_, hs1⟩
        rw [getlines_last g hnl hne, scan_loop]
        simp only [h1, List.nil_append]
        rfl

/-! ## Marker-free output of `flush` -/

theorem wellMarked_of_plain (live : List Str) (w : Str) (hw : ∀ c ∈ w, c ≠ ';') :
    ∀ rest, WellMarked live rest → WellMarked live (w ++ rest) := by
  induction w with
  | nil => intro rest h; exact h
  | cons c cs ih =>
    intro rest h
    exact WellMarked.plain c _ (hw c (List.mem_cons_self _ _))
      (ih (fun d hd => hw d (List.mem_cons_of_mem _ hd)) rest h)

theorem flush_resolve_no_marker (gen : GCode) (layer_id : Nat) (fan_speed : Int) (g : Str)
    (hfan : ∀ v b, WellMarked [] (gen.set_fan v b)) (hg : MarkerSafe markers g) :
    ∀ m ∈ markers, contains (flush_resolve gen layer_id fan_speed g) m = false := by
  have hcmd : ∀ (live : List Str) v b, MarkerSafe live (gen.set_fan v b) := fun live v b =>
    markerSafe_mono [] live _ (fun m hm => absurd hm (List.not_mem_nil _))
      (wellMarked_safe _ _ (hfan v b))
  have h0 : MarkerSafe markers (gen.set_fan fan_speed false ++ g) :=
    markerSafe_append _ _ _ (hcmd _ _ _) hg
  have hstart : ∀ rep, MarkerSafe [EXTRUDE_SET_SPEED, WIPE, BRIDGE_FAN_END] rep →
      MarkerSafe [EXTRUDE_SET_SPEED, WIPE, BRIDGE_FAN_END]
        (replace_all (gen.set_fan fan_speed false ++ g) BRIDGE_FAN_START rep) := fun rep hrep =>
    markerSafe_replace_all markers _ _ BRIDGE_FAN_START rep BRIDGE_FAN_START_mem
      (fun m hm => ⟨hm, by
        simp only [markers, List.mem_cons, List.mem_singleton, List.not_mem_nil, or_false] at hm ⊢
        tauto⟩) hrep h0
  have hend : ∀ s rep, MarkerSafe [EXTRUDE_SET_SPEED, WIPE, BRIDGE_FAN_END] s →
      MarkerSafe [EXTRUDE_SET_SPEED, WIPE] rep →
      MarkerSafe [EXTRUDE_SET_SPEED, WIPE] (replace_all s BRIDGE_FAN_END rep) := fun s rep hs hrep =>
    markerSafe_replace_all _ _ _ BRIDGE_FAN_END rep BRIDGE_FAN_END_mem
      (fun m hm => by
        simp only [markers, List.mem_cons, List.mem_singleton, List.not_mem_nil, or_false] at hm ⊢
        tauto) hrep hs
  have hwipe : ∀ s, MarkerSafe [EXTRUDE_SET_SPEED, WIPE] s →
      MarkerSafe [EXTRUDE_SET_SPEED] (replace_all s WIPE []) := fun s hs =>
    markerSafe_replace_all _ _ _ WIPE [] WIPE_mem
      (fun m hm => by
        simp only [markers, List.mem_cons, List.mem_singleton, List.not_mem_nil, or_false] at hm ⊢
        tauto) MarkerSafe.nil hs
  have hess : ∀ s, MarkerSafe [EXTRUDE_SET_SPEED] s →
      MarkerSafe [] (replace_all s EXTRUDE_SET_SPEED []) := fun s hs =>
    markerSafe_replace_all _ _ _ EXTRUDE_SET_SPEED [] EXTRUDE_SET_SPEED_mem
      (fun m hm => by
        simp only [markers, List.mem_cons, List.mem_singleton, List.not_mem_nil, or_false] at hm ⊢
        tauto) MarkerSafe.nil hs
  intro m hm
  apply markerSafe_no_marker _ m hm
  unfold flush_resolve
  simp only
  split
  · exact hess _ (hwipe _ (hend _ _ (hstart _ MarkerSafe.nil) MarkerSafe.nil))
  · exact hess _ (hwipe _ (hend _ _ (hstart _ (hcmd _ _ _)) (hcmd _ _ _)))

theorem sampleSetFan_wellMarked (v : Int) (b : Bool) : WellMarked [] (sampleSetFan v b) := by
  unfold sampleSetFan
  split
  · have := wellMarked_of_plain [] "M107\n".toList (by decide) [] WellMarked.nil
    simpa using this
  · have := wellMarked_of_plain [] ("M106 S".toList ++ insert_float (v : ℚ) ++ ['\n'])
      (by
        intro c hc
        simp only [List.mem_append, List.mem_singleton] at hc
        rcases hc with (hc | hc) | hc
        · exact (show ∀ c ∈ "M106 S".toList, c ≠ ';' by decide) c hc
        · exact numChar_ne_semicolon c (insert_float_num _ c hc)
        · subst hc; decide) [] WellMarked.nil
    simpa using this

/-- Counterexample for C6 as stated: the fan commands of the sample writer contain no marker text,
yet for the buffer `;_W;_EXTRUDE_SET_SPEEDIPE` (elapsed 40 s, so no scan) the text returned by
`flush` contains `;_WIPE`: erasing `;_EXTRUDE_SET_SPEED` in the last step joins `;_W` and `IPE`. -/
theorem C6_counterexample_spliced_marker :
    (∀ v b, ∀ m ∈ markers, contains (sampleSetFan v b) m = false)
    ∧ (({ sampleEmpty 0 with m_gcode := ";_W;_EXTRUDE_SET_SPEEDIPE\n".toList
                             m_elapsed_time := 40 } : CoolingBuffer).flush).map (fun r => r.1)
        = some "M106 S20\n;_WIPE\n".toList
    ∧ contains "M106 S20\n;_WIPE\n".toList WIPE = true := by
  refine ⟨fun v b m hm => ?_, by decide!, by decide⟩
  exact markerSafe_no_marker _ m hm (wellMarked_safe _ _ (sampleSetFan_wellMarked v b))

/-- C6 (amended): if every `;` in the buffer either begins one of the four markers or is followed
by a character other than `;` and `_`, every `;` in a fan command is followed by a character
other than `;` and `_` (so the fan commands contain no marker text), and the buffer is shorter
than `2^64` characters, then for every configuration, layer id and elapsed time `flush` returns a
text that contains none of `;_EXTRUDE_SET_SPEED`, `;_WIPE`, `;_BRIDGE_FAN_START`,
`;_BRIDGE_FAN_END` as a substring. -/
theorem C6_marker_free_output (w : CoolingBuffer)
    (hfan : ∀ v b, WellMarked [] (w.m_gcodegen.set_fan v b))
    (hbuf : WellMarked markers w.m_gcode)
    (hlen : w.m_gcode.length < 2 ^ 64) :
    ∃ out w1, w.flush = some (out, w1) ∧ ∀ m ∈ markers, contains out m = false := by
  unfold CoolingBuffer.flush
  by_cases hc : (w.m_gcodegen.config.cooling
      && decide (flush_speed_factor w.m_gcodegen.config w.m_elapsed_time < 1)) = true
  · obtain ⟨out, hout, hsafe⟩ := flush_scan_safe
      (flush_speed_factor w.m_gcodegen.config w.m_elapsed_time)
      (w.m_gcodegen.config.min_print_speed * 60) _ w.m_gcode (le_refl _) hbuf hlen false
    refine ⟨_, _, by simp only [hc, if_true, flush_scan, hout]; rfl, ?_⟩
    exact flush_resolve_no_marker _ _ _ _ hfan hsafe
  · refine ⟨_, _, by simp only [hc]; rfl, ?_⟩
    exact flush_resolve_no_marker _ _ _ _ hfan (wellMarked_safe _ _ hbuf)

/-- Witness for C6: a buffer with a tagged motion line, a bridge start marker and an ordinary
comment, flushed with elapsed time 5 s (speed factor 1/2) by the sample generator. -/
theorem C6_marker_free_output_witness :
    ∃ out w1,
      ({ sampleEmpty 0 with
          m_gcode := "G1 X10 Y10 F1200 ".toList ++ (EXTRUDE_SET_SPEED ++ ("\n".toList
            ++ (BRIDGE_FAN_START ++ ("\nG1 X1 ".toList ++ "; move\n".toList))))
          m_elapsed_time := 5 } : CoolingBuffer).flush = some (out, w1)
      ∧ ∀ m ∈ markers, contains out m = false :=
  C6_marker_free_output _ sampleSetFan_wellMarked
    (wellMarked_of_plain _ "G1 X10 Y10 F1200 ".toList (by decide) _
      (WellMarked.marker _ _ EXTRUDE_SET_SPEED_mem
        (wellMarked_of_plain _ "\n".toList (by decide) _
          (WellMarked.marker _ _ BRIDGE_FAN_START_mem
            (wellMarked_of_plain _ "\nG1 X1 ".toList (by decide) _
              (WellMarked.comment ' ' _ (by decide) (by decide)
                (wellMarked_of_plain _ "move\n".toList (by decide) _ WellMarked.nil)))))))
    (by decide)

/-! ## First layers, bridge markers and the remaining properties of `flush` -/

theorem flush_resolve_eq (gen : GCode) (l : Nat) (v : Int) (g : Str) :
    flush_resolve gen l v g = resolve_markers gen l v (gen.set_fan v false ++ g) := rfl

theorem flush_of_scanned (w : CoolingBuffer) (g : Str) (h : flush_scanned w = some g) :
    w.flush = some
      (flush_resolve w.m_gcodegen w.m_layer_id
          (flush_final_fan_speed w.m_gcodegen.config w.m_layer_id w.m_elapsed_time) g,
        { w with m_gcode := [], m_elapsed_time := 0, m_object_ids_visited := ∅ }) := by
  unfold flush_scanned at h
  unfold CoolingBuffer.flush
  simp only [h]

theorem flush_scanned_isSome (w : CoolingBuffer) : ∃ g, flush_scanned w = some g := by
  unfold flush_scanned
  split
  · exact flush_scan_isSome _ _ _
  · exact ⟨_, rfl⟩

theorem fan_disabled_of_lt (config : FullPrintConfig) (l : Nat)
    (hint : config.disable_fan_first_layers < 2 ^ 31)
    (h : (l : Int) < config.disable_fan_first_layers) :
    fan_disabled_on_layer config l = true := by
  unfold fan_disabled_on_layer
  have h0 : 0 ≤ config.disable_fan_first_layers := le_trans (Int.natCast_nonneg l) h.le
  have hmod : config.disable_fan_first_layers % 2 ^ 64 = config.disable_fan_first_layers :=
    Int.emod_eq_of_lt h0 (by omega)
  rw [hmod]
  simp only [decide_eq_true_eq]
  omega

theorem fan_enabled_of_le (config : FullPrintConfig) (l : Nat)
    (h0 : 0 ≤ config.disable_fan_first_layers)
    (h : config.disable_fan_first_layers ≤ (l : Int)) :
    fan_disabled_on_layer config l = false := by
  unfold fan_disabled_on_layer
  simp only [decide_eq_false_iff_not, not_lt]
  omega

/-- C11: if `layer-id < disable-fan-first-layers` (an `int`, so below `2^31`), the fan speed `flush`
uses is 0 whatever the cooling law gives, the command it prepends is `set_fan(0)`, and the bridge
markers are erased (replaced by the empty text), like the other markers.  With
`disable-fan-first-layers = 2`, layer 1, elapsed 0 and cooling enabled the cooling law gives 100 but
the fan speed is 0. -/
theorem C11_first_layer_suppression (w : CoolingBuffer)
    (hint : w.m_gcodegen.config.disable_fan_first_layers < 2 ^ 31)
    (hlayer : (w.m_layer_id : Int) < w.m_gcodegen.config.disable_fan_first_layers) :
    flush_final_fan_speed w.m_gcodegen.config w.m_layer_id w.m_elapsed_time = 0
    ∧ (∃ scanned, flush_scanned w = some scanned
        ∧ w.flush = some
          (replace_all (replace_all (replace_all (replace_all
              (w.m_gcodegen.set_fan 0 false ++ scanned)
              BRIDGE_FAN_START []) BRIDGE_FAN_END []) WIPE []) EXTRUDE_SET_SPEED [],
            { w with m_gcode := [], m_elapsed_time := 0, m_object_ids_visited := ∅ }))
    ∧ flush_fan_speed (bridgeBuffer 2 1 0).m_gcodegen.config 0 = 100
    ∧ flush_final_fan_speed (bridgeBuffer 2 1 0).m_gcodegen.config 1 0 = 0
    ∧ (bridgeBuffer 2 1 0).flush.map (fun r => r.1) = some "M107\n\nG1 X1\n\n".toList := by
  have hdis := fan_disabled_of_lt w.m_gcodegen.config w.m_layer_id hint hlayer
  have hfs : flush_final_fan_speed w.m_gcodegen.config w.m_layer_id w.m_elapsed_time = 0 := by
    simp [flush_final_fan_speed, hdis]
  refine ⟨hfs, ?_, by decide!, by decide!, by decide!⟩
  obtain ⟨g, hg⟩ := flush_scanned_isSome w
  refine ⟨g, hg, ?_⟩
  rw [flush_of_scanned w g hg, hfs]
  simp [flush_resolve, hdis]

/-- Witness for C11: layer 1 with two fan-less first layers. -/
theorem C11_first_layer_suppression_witness :
    flush_final_fan_speed (bridgeBuffer 2 1 0).m_gcodegen.config (bridgeBuffer 2 1 0).m_layer_id
        (bridgeBuffer 2 1 0).m_elapsed_time = 0
    ∧ (∃ scanned, flush_scanned (bridgeBuffer 2 1 0) = some scanned
        ∧ (bridgeBuffer 2 1 0).flush = some
          (replace_all (replace_all (replace_all (replace_all
              ((bridgeBuffer 2 1 0).m_gcodegen.set_fan 0 false ++ scanned)
              BRIDGE_FAN_START []) BRIDGE_FAN_END []) WIPE []) EXTRUDE_SET_SPEED [],
            { bridgeBuffer 2 1 0 with
                m_gcode := [], m_elapsed_time := 0, m_object_ids_visited := ∅ }))
    ∧ flush_fan_speed (bridgeBuffer 2 1 0).m_gcodegen.config 0 = 100
    ∧ flush_final_fan_speed (bridgeBuffer 2 1 0).m_gcodegen.config 1 0 = 0
    ∧ (bridgeBuffer 2 1 0).flush.map (fun r => r.1) = some "M107\n\nG1 X1\n\n".toList :=
  C11_first_layer_suppression (bridgeBuffer 2 1 0) (by decide) (by decide)

/-- Evaluation for C12: with `disable-fan-first-layers = -1`, cooling enabled, bridge fan speed 80
and layer 0, the condition `layer-id >= disable-fan-first-layers` holds, yet `flush` erases the
bridge markers instead of replacing them (and switches the fan off): the comparison
`m_layer_id < config.disable_fan_first_layers` converts the `int` to `size_t`, which makes -1
larger than every layer id.  With the count 0 the same buffer gets both markers replaced. -/
theorem C12_negative_first_layers_erase_markers :
    (bridgeBuffer (-1) 0 40).m_gcodegen.config.cooling = true
    ∧ (bridgeBuffer (-1) 0 40).m_gcodegen.config.bridge_fan_speed ≠ 0
    ∧ (bridgeBuffer (-1) 0 40).m_gcodegen.config.disable_fan_first_layers
        ≤ ((bridgeBuffer (-1) 0 40).m_layer_id : Int)
    ∧ (bridgeBuffer (-1) 0 40).flush.map (fun r => r.1) = some "M107\n\nG1 X1\n\n".toList
    ∧ (bridgeBuffer (-1) 0 40).flush.map (fun r => r.1)
        ≠ some (replace_all (replace_all (replace_all (replace_all
            (sampleSetFan 0 false ++ (bridgeBuffer (-1) 0 40).m_gcode)
            BRIDGE_FAN_START (sampleSetFan 80 true)) BRIDGE_FAN_END (sampleSetFan 0 true))
            WIPE []) EXTRUDE_SET_SPEED [])
    ∧ (bridgeBuffer 0 0 40).flush.map (fun r => r.1)
        = some "M106 S20\nM106 S80\n\nG1 X1\nM106 S20\n\n".toList := by
  decide!

/-- The bridge-marker resolution for a first-layers count that is not negative: if cooling is
enabled, `bridge-fan-speed != 0` and `0 <= disable-fan-first-layers <= layer-id`, `flush` replaces every `;_BRIDGE_FAN_START` by
`set_fan(bridge_fan_speed, true)` and every `;_BRIDGE_FAN_END` by `set_fan(fan_speed, true)`, with
the fan speed of the prepended command; if cooling is disabled, or `bridge-fan-speed == 0`, or
`layer-id < disable-fan-first-layers`, both markers are replaced by the empty text. -/
theorem bridge_marker_resolution_of_nonneg (w : CoolingBuffer)
    (hint : w.m_gcodegen.config.disable_fan_first_layers < 2 ^ 31) :
    ∃ scanned, flush_scanned w = some scanned
      ∧ (w.m_gcodegen.config.cooling = true ∧ w.m_gcodegen.config.bridge_fan_speed ≠ 0
          ∧ 0 ≤ w.m_gcodegen.config.disable_fan_first_layers
          ∧ w.m_gcodegen.config.disable_fan_first_layers ≤ (w.m_layer_id : Int)
        → w.flush = some
          (replace_all (replace_all (replace_all (replace_all
              (w.m_gcodegen.set_fan
                  (flush_final_fan_speed w.m_gcodegen.config w.m_layer_id w.m_elapsed_time) false
                ++ scanned)
              BRIDGE_FAN_START (w.m_gcodegen.set_fan w.m_gcodegen.config.bridge_fan_speed true))
              BRIDGE_FAN_END (w.m_gcodegen.set_fan
                (flush_final_fan_speed w.m_gcodegen.config w.m_layer_id w.m_elapsed_time) true))
              WIPE []) EXTRUDE_SET_SPEED [],
            { w with m_gcode := [], m_elapsed_time := 0, m_object_ids_visited := ∅ }))
      ∧ (w.m_gcodegen.config.cooling = false ∨ w.m_gcodegen.config.bridge_fan_speed = 0
          ∨ (w.m_layer_id : Int) < w.m_gcodegen.config.disable_fan_first_layers
        → w.flush = some
          (replace_all (replace_all (replace_all (replace_all
              (w.m_gcodegen.set_fan
                  (flush_final_fan_speed w.m_gcodegen.config w.m_layer_id w.m_elapsed_time) false
                ++ scanned)
              BRIDGE_FAN_START []) BRIDGE_FAN_END []) WIPE []) EXTRUDE_SET_SPEED [],
            { w with m_gcode := [], m_elapsed_time := 0, m_object_ids_visited := ∅ })) := by
  obtain ⟨g, hg⟩ := flush_scanned_isSome w
  refine ⟨g, hg, ?_, ?_⟩
  · rintro ⟨hc, hb, h0, hle⟩
    have hdis := fan_enabled_of_le w.m_gcodegen.config w.m_layer_id h0 hle
    rw [flush_of_scanned w g hg]
    simp [flush_resolve, hdis, hc, hb]
  · intro h
    rw [flush_of_scanned w g hg]
    rcases h with h | h | h
    · simp [flush_resolve, h]
    · simp [flush_resolve, h]
    · have hdis := fan_disabled_of_lt w.m_gcodegen.config w.m_layer_id hint h
      simp [flush_resolve, hdis]

/-- C13: a line that contains `;_WIPE` (and `;_EXTRUDE_SET_SPEED`) is never handed to
`apply_speed_factor` by the scan of `flush`, whatever the bridge flag: it is emitted exactly as it
is in the buffer, after the scan of the lines before it and before the scan of the lines after. -/
theorem C13_wipe_exemption (f m : ℚ) (gcode : Str) (before after : List Str) (line : Str)
    (hlines : getlines gcode = before ++ line :: after)
    (_hess : contains line EXTRUDE_SET_SPEED = true)
    (hwipe : contains line WIPE = true) :
    (∀ b, scan_eligible line b = false)
    ∧ (∀ b, scan_line f m line b = some line)
    ∧ ∃ head tail,
        scan_loop f m before false [] = some head
        ∧ flush_scan f m gcode = some (head ++ (line ++ ['\n']) ++ tail) := by
  have hel : ∀ b, scan_eligible line b = false := by
    intro b
    simp [scan_eligible, hwipe]
  have hline : ∀ b, scan_line f m line b = some line :=
    fun b => scan_line_not_eligible f m line b (hel b)
  refine ⟨hel, hline, ?_⟩
  obtain ⟨b1, head, h1, h2⟩ := scan_loop_append f m before false []
  obtain ⟨tail, ht⟩ := scan_loop_isSome f m after (contains line BRIDGE_FAN_START) []
  refine ⟨head, tail, by simpa using h1, ?_⟩
  unfold flush_scan
  rw [hlines, h2]
  simp only [scan_loop, hline, List.nil_append]
  rw [scan_loop_acc, ht]
  simp

/-- Witness for C13: a wipe line between two tagged motion lines, at factor 1/2. -/
theorem C13_wipe_exemption_witness :
    (∀ b, scan_eligible "G1 X2 F1200 ;_EXTRUDE_SET_SPEED;_WIPE".toList b = false)
    ∧ (∀ b, scan_line (1 / 2) 600 "G1 X2 F1200 ;_EXTRUDE_SET_SPEED;_WIPE".toList b
        = some "G1 X2 F1200 ;_EXTRUDE_SET_SPEED;_WIPE".toList)
    ∧ ∃ head tail,
        scan_loop (1 / 2) 600 ["G1 X1 F1200 ;_EXTRUDE_SET_SPEED".toList] false [] = some head
        ∧ flush_scan (1 / 2) 600
            ("G1 X1 F1200 ;_EXTRUDE_SET_SPEED\nG1 X2 F1200 ;_EXTRUDE_SET_SPEED;_WIPE\n".toList
              ++ "G1 X3 F1200 ;_EXTRUDE_SET_SPEED\n".toList)
          = some (head ++ ("G1 X2 F1200 ;_EXTRUDE_SET_SPEED;_WIPE".toList ++ ['\n']) ++ tail) :=
  C13_wipe_exemption (1 / 2) 600 _ ["G1 X1 F1200 ;_EXTRUDE_SET_SPEED".toList]
    ["G1 X3 F1200 ;_EXTRUDE_SET_SPEED".toList] "G1 X2 F1200 ;_EXTRUDE_SET_SPEED;_WIPE".toList
    (by decide) (by decide) (by decide)

theorem replace_all_of_not_contains (p rep : Str) (s : Str)
    (h : contains s p = false) : replace_all s p rep = s := by
  induction s with
  | nil => rfl
  | cons c cs ih =>
    simp only [contains, Bool.or_eq_false_iff] at h
    rw [replace_all_head_miss c cs p rep h.1, ih h.2]

theorem resolve_markers_of_no_marker (gen : GCode) (l : Nat) (v : Int) (s : Str)
    (h : ∀ m ∈ markers, contains s m = false) : resolve_markers gen l v s = s := by
  have h1 := fun rep => replace_all_of_not_contains BRIDGE_FAN_START rep s
    (h _ BRIDGE_FAN_START_mem)
  have h2 := fun rep => replace_all_of_not_contains BRIDGE_FAN_END rep s
    (h _ BRIDGE_FAN_END_mem)
  have h3 := replace_all_of_not_contains WIPE [] s (h _ WIPE_mem)
  have h4 := replace_all_of_not_contains EXTRUDE_SET_SPEED [] s (h _ EXTRUDE_SET_SPEED_mem)
  unfold resolve_markers
  simp only [h1, h2, ite_self, h3, h4]

theorem flush_scanned_empty (gen : GCode) (l : Nat) (v : Finset Nat) :
    flush_scanned ⟨gen, [], 0, l, v⟩ = some [] := by
  unfold flush_scanned
  split <;> rfl

/-- Counterexample for C14 as stated: with a command writer whose fan command is the text
`;_WIPE`, the second of two flushes in a row returns the empty text, not the fan command. -/
theorem C14_counterexample_erased_fan_command :
    (({ wipeWriterEmpty with m_gcode := "G1 X1\n".toList } : CoolingBuffer).flush.bind
        (fun r => r.2.flush)).map (fun r => r.1) = some []
    ∧ (∀ v, wipeWriterGen.set_fan v false = ";_WIPE".toList) := by
  refine ⟨by decide!, fun v => rfl⟩

/-- C14 (amended): for every window state and configuration `flush` succeeds and leaves the buffer
empty, the elapsed time 0, `visited` empty and the layer id (and the generator) unchanged; a second
flush right afterwards returns the marker resolution of the fan command for elapsed 0 alone, which
is exactly the fan command when that contains no marker text, and leaves the window as it is. -/
theorem C14_flush_resets_window (w : CoolingBuffer) :
    (∃ out, w.flush = some (out, ⟨w.m_gcodegen, [], 0, w.m_layer_id, ∅⟩))
    ∧ (⟨w.m_gcodegen, [], 0, w.m_layer_id, ∅⟩ : CoolingBuffer).flush
        = some (resolve_markers w.m_gcodegen w.m_layer_id
              (flush_final_fan_speed w.m_gcodegen.config w.m_layer_id 0)
              (w.m_gcodegen.set_fan (flush_final_fan_speed w.m_gcodegen.config w.m_layer_id 0)
                false),
            ⟨w.m_gcodegen, [], 0, w.m_layer_id, ∅⟩)
    ∧ ((∀ m ∈ markers, contains (w.m_gcodegen.set_fan
            (flush_final_fan_speed w.m_gcodegen.config w.m_layer_id 0) false) m = false)
        → (⟨w.m_gcodegen, [], 0, w.m_layer_id, ∅⟩ : CoolingBuffer).flush
            = some (w.m_gcodegen.set_fan
                (flush_final_fan_speed w.m_gcodegen.config w.m_layer_id 0) false,
              ⟨w.m_gcodegen, [], 0, w.m_layer_id, ∅⟩)) := by
  have h2 : (⟨w.m_gcodegen, [], 0, w.m_layer_id, ∅⟩ : CoolingBuffer).flush
        = some (resolve_markers w.m_gcodegen w.m_layer_id
              (flush_final_fan_speed w.m_gcodegen.config w.m_layer_id 0)
              (w.m_gcodegen.set_fan (flush_final_fan_speed w.m_gcodegen.config w.m_layer_id 0)
                false),
            ⟨w.m_gcodegen, [], 0, w.m_layer_id, ∅⟩) := by
    rw [flush_of_scanned _ [] (flush_scanned_empty _ _ _), flush_resolve_eq]
    simp
  refine ⟨?_, h2, ?_⟩
  · obtain ⟨g, hg⟩ := flush_scanned_isSome w
    exact ⟨_, flush_of_scanned w g hg⟩
  · intro hno
    rw [h2, resolve_markers_of_no_marker _ _ _ _ hno]

theorem decimal_nonneg (num : Str) (v : ℚ) (h : Decimal num v) : 0 ≤ v := by
  cases h with
  | whole ip _ _ => exact Nat.cast_nonneg _
  | point ip fp _ _ _ =>
    exact add_nonneg (Nat.cast_nonneg _) (div_nonneg (Nat.cast_nonneg _) (Nat.cast_nonneg _))

theorem fl32_scaled_le (x factor : ℚ) (hx : 0 ≤ x) (hfix : fl32 x = x) (hf : factor < 1) :
    fl32 (x * factor) ≤ x := by
  by_cases hpos : 0 < x * factor
  · have hle : x * factor ≤ x := by
      have := mul_le_mul_of_nonneg_left hf.le hx
      simpa using this
    exact fl32_le_of_fixed _ _ hpos hle hfix
  · exact le_trans (fl32_nonpos _ (not_lt.mp hpos)) hx

/-- Counterexample for C15 as stated.  The floor: with min-print-speed 10 mm/s (floor 600) and speed
factor 1/2, the line `G1 X1 F300 ;_EXTRUDE_SET_SPEED` is rewritten to feed rate 600, which is above
its feed rate 300.  The formatting: with floor 0 (min-print-speed 0) and the factor
`16777199 / 2^24` (a `float`, about 0.999999), the line `G1 X1 F1800.128 ;_EXTRUDE_SET_SPEED` is
rewritten to feed rate `1800.13`, which is above 1800.128 although the scaled value is below it.
The number read: the numeral `0.000000000000000000000000000000000000000000001` (`10^-45`) is read
as the nearest `float`, `2^-149` (about `1.4 * 10^-45`), and with the factor `15099494 / 2^24` (a
`float`, about 0.9) and floor 0 the scaled value rounds to `2^-149` again, above the numeral's
value. -/
theorem C15_counterexample_floor_and_formatting :
    flush_speed_factor sampleConfig 5 = 1 / 2
    ∧ 0 ≤ sampleConfig.min_print_speed
    ∧ apply_speed_factor "G1 X1 F300 ;_EXTRUDE_SET_SPEED".toList
        (flush_speed_factor sampleConfig 5) (sampleConfig.min_print_speed * 60)
      = some "G1 X1 F600;_EXTRUDE_SET_SPEED".toList
    ∧ (⟨sampleGen 0, "G1 X1 F300 ;_EXTRUDE_SET_SPEED\n".toList, 5, 3, {1}⟩
        : CoolingBuffer).flush.map (fun r => r.1) = some "M106 S100\nG1 X1 F600\n".toList
    ∧ fl32 (16777199 / 16777216) = 16777199 / 16777216
    ∧ (16777199 / 16777216 : ℚ) < 1
    ∧ apply_speed_factor "G1 X1 F1800.128 ;_EXTRUDE_SET_SPEED".toList (16777199 / 16777216) 0
      = some "G1 X1 F1800.13;_EXTRUDE_SET_SPEED".toList
    ∧ extract_decimal "1800.128".toList < extract_decimal "1800.13".toList
    ∧ fl32 (to_float (extract_decimal "1800.128".toList) * (16777199 / 16777216))
        < extract_decimal "1800.128".toList
    ∧ fl32 (15099494 / 16777216) = 15099494 / 16777216
    ∧ (15099494 / 16777216 : ℚ) < 1
    ∧ apply_speed_factor
          "G1 X1 F0.000000000000000000000000000000000000000000001 ;_EXTRUDE_SET_SPEED".toList
          (15099494 / 16777216) 0
        = some "G1 X1 F1.4013e-45;_EXTRUDE_SET_SPEED".toList
    ∧ extract_decimal "0.000000000000000000000000000000000000000000001".toList
        < fl32 (to_float (extract_decimal "0.000000000000000000000000000000000000000000001".toList)
            * (15099494 / 16777216)) := by
  decide!

/-- C15 (amended): for a line whose first `F` is followed by a decimal numeral of value `v` (then a
space, or the end of the line), rewritten with a speed factor below 1 (when the factor of `flush` is
not below 1 the scan does not run and no line is rewritten) and any floor, the text written after the `F` is the stream output
(six significant digits) of the single-precision value `s = max (fl32 (v' * factor)) floor`, where
`v'` is `v` as read into a `float`; `s` is at most `max v' floor`, it is at most `v'` when
`floor <= v'`, and it is the floor (above `v'`) when `v' < floor`.  The bounds are on `s`; the
six-digit text of `s` can be above `v`. -/
theorem C15_scaling_bounded (pre num rest : Str) (v factor floor : ℚ)
    (hf : factor < 1)
    (hpre : 'F' ∉ pre) (hnum : Decimal num v)
    (hlen : (pre ++ 'F' :: (num ++ ' ' :: rest)).length < 2 ^ 64) :
    apply_speed_factor (pre ++ 'F' :: (num ++ ' ' :: rest)) factor floor
      = some (pre ++ 'F' :: (insert_speed (max (fl32 (to_float v * factor)) floor) ++ rest))
    ∧ apply_speed_factor (pre ++ 'F' :: num) factor floor
      = some (pre ++ 'F' :: insert_speed (max (fl32 (to_float v * factor)) floor))
    ∧ max (fl32 (to_float v * factor)) floor ≤ max (to_float v) floor
    ∧ (floor ≤ to_float v → max (fl32 (to_float v * factor)) floor ≤ to_float v)
    ∧ (to_float v < floor → max (fl32 (to_float v * factor)) floor = floor)
    ∧ (∀ w : CoolingBuffer,
        ¬ flush_speed_factor w.m_gcodegen.config w.m_elapsed_time < 1
          → flush_scanned w = some w.m_gcode) := by
  have hv := to_float_nonneg v (decimal_nonneg num v hnum)
  have hscale : fl32 (to_float v * factor) ≤ to_float v :=
    fl32_scaled_le (to_float v) factor hv (fl32_to_float v) hf
  obtain ⟨h1, h2⟩ := apply_speed_factor_decimal pre num rest v factor floor hpre hnum hlen
  refine ⟨h1, h2, max_le_max hscale (le_refl _), fun h => max_le hscale h,
    fun h => max_eq_right (le_trans hscale h.le), ?_⟩
  intro w hw
  unfold flush_scanned
  rw [if_neg]
  simp [hw]

/-- Witness for C15: feed rate 1200 at factor 1/2 with floor 600. -/
theorem C15_scaling_bounded_witness :
    apply_speed_factor ("G1 X1 ".toList ++ 'F' :: ("1200".toList ++ ' ' :: ";_WIPE".toList))
        (1 / 2) 600
      = some ("G1 X1 ".toList ++ 'F' ::
          (insert_speed (max (fl32 (to_float (digitsVal "1200".toList : ℚ) * (1 / 2))) 600)
            ++ ";_WIPE".toList))
    ∧ apply_speed_factor ("G1 X1 ".toList ++ 'F' :: "1200".toList) (1 / 2) 600
      = some ("G1 X1 ".toList ++ 'F' ::
          insert_speed (max (fl32 (to_float (digitsVal "1200".toList : ℚ) * (1 / 2))) 600))
    ∧ max (fl32 (to_float (digitsVal "1200".toList : ℚ) * (1 / 2))) 600
        ≤ max (to_float (digitsVal "1200".toList : ℚ)) 600
    ∧ ((600 : ℚ) ≤ to_float (digitsVal "1200".toList : ℚ)
        → max (fl32 (to_float (digitsVal "1200".toList : ℚ) * (1 / 2))) 600
            ≤ to_float (digitsVal "1200".toList : ℚ))
    ∧ (to_float (digitsVal "1200".toList : ℚ) < 600
        → max (fl32 (to_float (digitsVal "1200".toList : ℚ) * (1 / 2))) 600 = 600)
    ∧ (∀ w : CoolingBuffer,
        ¬ flush_speed_factor w.m_gcodegen.config w.m_elapsed_time < 1
          → flush_scanned w = some w.m_gcode) :=
  C15_scaling_bounded "G1 X1 ".toList "1200".toList ";_WIPE".toList _ (1 / 2) 600
    (by decide!) (by decide) (Decimal.whole _ (by decide) (by decide)) (by decide)

/-- C19: whenever the interpolation branch of `flush` is evaluated (cooling enabled,
`slowdown <= elapsed < fan-below`) its divisor `fan-below - slowdown` is positive, so the branch is
not reached when the thresholds are equal; for `elapsed >= 0`, whenever
`elapsed / slowdown` is evaluated (cooling enabled, `elapsed < slowdown`), `slowdown` is positive;
hence for `elapsed >= 0` the fan speed and speed factor computed with checked divisions never hit a
zero divisor and are the values `flush` uses. -/
theorem C19_no_division_by_zero (config : FullPrintConfig) (elapsed : ℚ) :
    (config.cooling = true → (config.slowdown_below_layer_time : ℚ) ≤ elapsed
        → elapsed < (config.fan_below_layer_time : ℚ)
        → 0 < config.fan_below_layer_time - config.slowdown_below_layer_time)
    ∧ (config.fan_below_layer_time = config.slowdown_below_layer_time
        → ¬ ((config.slowdown_below_layer_time : ℚ) ≤ elapsed
              ∧ elapsed < (config.fan_below_layer_time : ℚ)))
    ∧ (0 ≤ elapsed → config.cooling = true → elapsed < (config.slowdown_below_layer_time : ℚ)
        → 0 < config.slowdown_below_layer_time)
    ∧ (0 ≤ elapsed → flush_control_checked config elapsed
        = some (flush_fan_speed config elapsed, flush_speed_factor config elapsed)) := by
  have h1 : (config.slowdown_below_layer_time : ℚ) ≤ elapsed
      → elapsed < (config.fan_below_layer_time : ℚ)
      → 0 < config.fan_below_layer_time - config.slowdown_below_layer_time := by
    intro ha hb
    have : (config.slowdown_below_layer_time : ℚ) < (config.fan_below_layer_time : ℚ) :=
      lt_of_le_of_lt ha hb
    have : config.slowdown_below_layer_time < config.fan_below_layer_time := by
      exact_mod_cast this
    omega
  have h3 : 0 ≤ elapsed → elapsed < (config.slowdown_below_layer_time : ℚ)
      → 0 < config.slowdown_below_layer_time := by
    intro ha hb
    have : (0 : ℚ) < (config.slowdown_below_layer_time : ℚ) := lt_of_le_of_lt ha hb
    exact_mod_cast this
  refine ⟨fun _ => h1, ?_, fun ha _ => h3 ha, ?_⟩
  · rintro heq ⟨ha, hb⟩
    have := h1 ha hb
    omega
  · intro h0
    unfold flush_control_checked flush_fan_speed flush_speed_factor checked_div
    by_cases hc : config.cooling = true
    · by_cases hs : elapsed < (config.slowdown_below_layer_time : ℚ)
      · have hpos := h3 h0 hs
        have hne : (config.slowdown_below_layer_time : ℚ) ≠ 0 := by
          have : (0 : ℚ) < (config.slowdown_below_layer_time : ℚ) := by exact_mod_cast hpos
          exact ne_of_gt this
        simp [hc, hs, hne]
      · by_cases hb : elapsed < (config.fan_below_layer_time : ℚ)
        · have hpos := h1 (not_lt.mp hs) hb
          have hne : ((config.fan_below_layer_time - config.slowdown_below_layer_time : Int) : ℚ)
              ≠ 0 := by
            have : (0 : ℚ)
                < ((config.fan_below_layer_time - config.slowdown_below_layer_time : Int) : ℚ) := by
              exact_mod_cast hpos
            exact ne_of_gt this
          simp only [hc, if_true, if_neg hs, if_pos hb, if_neg hne, Option.map_some']
        · simp [hc, hs, hb]
    · simp [hc]

theorem scan_loop_of_none_eligible (f m : ℚ) (ls : List Str)
    (h : ∀ l ∈ ls, ¬ (starts_with l "G1".toList = true ∧ contains l EXTRUDE_SET_SPEED = true)) :
    ∀ (b : Bool) (acc : Str), scan_loop f m ls b acc = some (acc ++ unlines ls) := by
  induction ls with
  | nil => intro b acc; simp [scan_loop, unlines]
  | cons l rest ih =>
    intro b acc
    have hl : scan_line f m l b = some l := by
      apply scan_line_not_eligible
      have := h l (List.mem_cons_self _ _)
      unfold scan_eligible
      by_cases h1 : starts_with l "G1".toList = true
      · have h2 : contains l EXTRUDE_SET_SPEED = false := by
          cases hc : contains l EXTRUDE_SET_SPEED
          · rfl
          · exact absurd ⟨h1, hc⟩ this
        rw [h2]; simp
      · have h1' : starts_with l "G1".toList = false := Bool.eq_false_iff.mpr h1
        rw [h1']; simp
    rw [scan_loop]
    simp only [hl]
    rw [ih (fun x hx => h x (List.mem_cons_of_mem _ hx))]
    simp [unlines]

theorem getlines_eq_nil (g : Str) (h : getlines g = []) : g = [] := by
  cases g with
  | nil => rfl
  | cons c cs =>
    unfold getlines at h
    split at h
    · exact absurd h (List.cons_ne_nil _ _)
    · split at h <;> exact absurd h (List.cons_ne_nil _ _)

theorem unlines_getlines_cons (c : Char) (cs : Str) (hcs : cs ≠ []) :
    unlines (getlines (c :: cs)) = c :: unlines (getlines cs) := by
  rw [getlines]
  split
  · next h => subst h; rfl
  · split
    · next h => exact absurd (getlines_eq_nil cs h) hcs
    · next l ls h => rw [h]; rfl

theorem unlines_getlines (g : Str) (hg : g ≠ []) :
    unlines (getlines g) = if g.getLast? = some '\n' then g else g ++ ['\n'] := by
  induction g with
  | nil => exact absurd rfl hg
  | cons c cs ih =>
    by_cases hcs : cs = []
    · subst hcs
      by_cases hc : c = '\n'
      · subst hc; rfl
      · simp [getlines, unlines, hc]
    · rw [unlines_getlines_cons c cs hcs, ih hcs]
      obtain ⟨d, ds, rfl⟩ := List.exists_cons_of_ne_nil hcs
      rw [List.getLast?_cons_cons]
      split <;> rfl

/-- C20: on a buffer in which no line both starts with `G1` and contains `;_EXTRUDE_SET_SPEED`, the
scan of `flush` (for every speed factor and floor) returns the buffer unchanged when it is empty or
ends with a newline, and the buffer followed by one newline otherwise. -/
theorem C20_scan_identity (f m : ℚ) (gcode : Str)
    (hnone : ∀ l ∈ getlines gcode,
      ¬ (starts_with l "G1".toList = true ∧ contains l EXTRUDE_SET_SPEED = true)) :
    (gcode = [] ∨ gcode.getLast? = some '\n' → flush_scan f m gcode = some gcode)
    ∧ (¬ (gcode = [] ∨ gcode.getLast? = some '\n')
        → flush_scan f m gcode = some (gcode ++ ['\n'])) := by
  have hscan : flush_scan f m gcode = some (unlines (getlines gcode)) := by
    unfold flush_scan
    rw [scan_loop_of_none_eligible f m _ hnone]
    rfl
  constructor
  · rintro (h | h)
    · subst h; rfl
    · have hne : gcode ≠ [] := by rintro rfl; simp at h
      rw [hscan, unlines_getlines gcode hne, if_pos h]
  · intro h
    have hne : gcode ≠ [] := fun hn => h (Or.inl hn)
    have hl : ¬ gcode.getLast? = some '\n' := fun hn => h (Or.inr hn)
    rw [hscan, unlines_getlines gcode hne, if_neg hl]

/-- Witness for C20: a comment line, an empty line and a last line without newline. -/
theorem C20_scan_identity_witness :
    ("; layer\n\nG1 X1 F1200".toList = []
        ∨ "; layer\n\nG1 X1 F1200".toList.getLast? = some '\n'
      → flush_scan (1 / 2) 600 "; layer\n\nG1 X1 F1200".toList
          = some "; layer\n\nG1 X1 F1200".toList)
    ∧ (¬ ("; layer\n\nG1 X1 F1200".toList = []
          ∨ "; layer\n\nG1 X1 F1200".toList.getLast? = some '\n')
        → flush_scan (1 / 2) 600 "; layer\n\nG1 X1 F1200".toList
            = some ("; layer\n\nG1 X1 F1200".toList ++ ['\n'])) :=
  C20_scan_identity (1 / 2) 600 "; layer\n\nG1 X1 F1200".toList (by decide)

/-- C18: in the scan of `flush` a line that starts with `G1`, contains `;_EXTRUDE_SET_SPEED` and
does not contain `;_WIPE` is handed to `apply_speed_factor` exactly when the line before it, as the
scan emitted it, does not contain `;_BRIDGE_FAN_START` (whether or not it contains
`;_BRIDGE_FAN_END`); the first line of the buffer is always handed over. -/
theorem C18_bridge_flag_one_line_memory (f m : ℚ) (line : Str)
    (hG1 : starts_with line "G1".toList = true)
    (hess : contains line EXTRUDE_SET_SPEED = true)
    (hwipe : contains line WIPE = false) :
    (∀ b, scan_eligible line b = !b)
    ∧ (∃ rewritten, apply_speed_factor line f m = some rewritten
        ∧ scan_line f m line false = some (replace_first rewritten EXTRUDE_SET_SPEED [])
        ∧ scan_line f m line true = some line
        ∧ (∀ gcode after, getlines gcode = line :: after →
            ∃ tail, flush_scan f m gcode
              = some ((replace_first rewritten EXTRUDE_SET_SPEED [] ++ ['\n']) ++ tail))
        ∧ (∀ gcode before prev after, getlines gcode = before ++ prev :: line :: after →
            ∃ head emitted tail,
              scan_loop f m before false [] = some head
              ∧ scan_loop f m (before ++ [prev]) false [] = some (head ++ (emitted ++ ['\n']))
              ∧ flush_scan f m gcode
                  = some (head ++ (emitted ++ ['\n'])
                      ++ ((if contains emitted BRIDGE_FAN_START
                            then line else replace_first rewritten EXTRUDE_SET_SPEED [])
                          ++ ['\n'])
                      ++ tail)))
    ∧ flush_scan (1 / 2) 600 ";_BRIDGE_FAN_END\nG1 X1 F1200 ;_EXTRUDE_SET_SPEED\n".toList
        = some ";_BRIDGE_FAN_END\nG1 X1 F600\n".toList
    ∧ flush_scan (1 / 2) 600
          ";_BRIDGE_FAN_START;_BRIDGE_FAN_END\nG1 X1 F1200 ;_EXTRUDE_SET_SPEED\n".toList
        = some ";_BRIDGE_FAN_START;_BRIDGE_FAN_END\nG1 X1 F1200 ;_EXTRUDE_SET_SPEED\n".toList := by
  have hel : ∀ b, scan_eligible line b = !b := by
    intro b
    unfold scan_eligible
    rw [hG1, hess, hwipe]
    simp
  obtain ⟨rewritten, hrew⟩ : ∃ r, apply_speed_factor line f m = some r :=
    ⟨_, apply_speed_factor_eq line f m⟩
  have hfalse : scan_line f m line false = some (replace_first rewritten EXTRUDE_SET_SPEED []) := by
    simp [scan_line, hel, hrew]
  have htrue : scan_line f m line true = some line := by
    simp [scan_line, hel]
  have hflag : ∀ b : Bool, scan_line f m line b
      = some (if b then line else replace_first rewritten EXTRUDE_SET_SPEED []) := by
    intro b
    cases b
    · simpa using hfalse
    · simpa using htrue
  refine ⟨hel, ⟨rewritten, hrew, hfalse, htrue, ?_, ?_⟩, by decide!, by decide!⟩
  · intro gcode after hlines
    obtain ⟨tail, ht⟩ := scan_loop_isSome f m after
      (contains (replace_first rewritten EXTRUDE_SET_SPEED []) BRIDGE_FAN_START) []
    refine ⟨tail, ?_⟩
    unfold flush_scan
    rw [hlines, scan_loop]
    simp only [hfalse, List.nil_append]
    rw [scan_loop_acc, ht]
    rfl
  · intro gcode before prev after hlines
    obtain ⟨b1, head, h1, h2⟩ := scan_loop_append f m before false []
    obtain ⟨emitted, hem⟩ := scan_line_isSome f m prev b1
    obtain ⟨tail, ht⟩ := scan_loop_isSome f m after
      (contains (if contains emitted BRIDGE_FAN_START
          then line else replace_first rewritten EXTRUDE_SET_SPEED []) BRIDGE_FAN_START) []
    refine ⟨head, emitted, tail, by simpa using h1, ?_, ?_⟩
    · rw [h2 [prev]]
      simp only [scan_loop, hem, List.nil_append]
    · unfold flush_scan
      rw [hlines, h2]
      simp only [scan_loop, hem, hflag, List.nil_append]
      rw [scan_loop_acc, ht]
      simp

/-- Witness for C18: the tagged motion line `G1 X2 F1200 ;_EXTRUDE_SET_SPEED` at factor 1/2. -/
theorem C18_bridge_flag_one_line_memory_witness :
    (∀ b, scan_eligible "G1 X2 F1200 ;_EXTRUDE_SET_SPEED".toList b = !b)
    ∧ (∃ rewritten,
        apply_speed_factor "G1 X2 F1200 ;_EXTRUDE_SET_SPEED".toList (1 / 2) 600 = some rewritten
        ∧ scan_line (1 / 2) 600 "G1 X2 F1200 ;_EXTRUDE_SET_SPEED".toList false
            = some (replace_first rewritten EXTRUDE_SET_SPEED [])
        ∧ scan_line (1 / 2) 600 "G1 X2 F1200 ;_EXTRUDE_SET_SPEED".toList true
            = some "G1 X2 F1200 ;_EXTRUDE_SET_SPEED".toList
        ∧ (∀ gcode after,
            getlines gcode = "G1 X2 F1200 ;_EXTRUDE_SET_SPEED".toList :: after →
            ∃ tail, flush_scan (1 / 2) 600 gcode
              = some ((replace_first rewritten EXTRUDE_SET_SPEED [] ++ ['\n']) ++ tail))
        ∧ (∀ gcode before prev after,
            getlines gcode
              = before ++ prev :: "G1 X2 F1200 ;_EXTRUDE_SET_SPEED".toList :: after →
            ∃ head emitted tail,
              scan_loop (1 / 2) 600 before false [] = some head
              ∧ scan_loop (1 / 2) 600 (before ++ [prev]) false []
                  = some (head ++ (emitted ++ ['\n']))
              ∧ flush_scan (1 / 2) 600 gcode
                  = some (head ++ (emitted ++ ['\n'])
                      ++ ((if contains emitted BRIDGE_FAN_START
                            then "G1 X2 F1200 ;_EXTRUDE_SET_SPEED".toList
                            else replace_first rewritten EXTRUDE_SET_SPEED [])
                          ++ ['\n'])
                      ++ tail)))
    ∧ flush_scan (1 / 2) 600 ";_BRIDGE_FAN_END\nG1 X1 F1200 ;_EXTRUDE_SET_SPEED\n".toList
        = some ";_BRIDGE_FAN_END\nG1 X1 F600\n".toList
    ∧ flush_scan (1 / 2) 600
          ";_BRIDGE_FAN_START;_BRIDGE_FAN_END\nG1 X1 F1200 ;_EXTRUDE_SET_SPEED\n".toList
        = some ";_BRIDGE_FAN_START;_BRIDGE_FAN_END\nG1 X1 F1200 ;_EXTRUDE_SET_SPEED\n".toList :=
  C18_bridge_flag_one_line_memory (1 / 2) 600 "G1 X2 F1200 ;_EXTRUDE_SET_SPEED".toList
    (by decide) (by decide) (by decide)

end Slic3r
